import Mathlib

/-!
# pdf2bmp: a shallow embedding of `pdf2bmp.cpp`

The program converts one page of a PDF document into a 24-bit bitmap file.
This file embeds the page geometry calculation (`GetPDFPageSizeInPixels`),
the command line parser (`pdf2bmp_parse_cmdline`) and the driver
(`pdf2bmp_main`) and proves properties of them.

Modelling conventions.

* A `double` is an IEEE 754 binary64 number (`Double`): a finite value, held
  as the rational it denotes, an infinity or a NaN. Every operation rounds
  its exact result to the nearest binary64 value, ties to even, and overflows
  to an infinity (`round64`). Signed zeros are not distinguished.
* `int` is the 32-bit two's complement integer type and `unsigned long` the
  32-bit unsigned type of the Windows ABI the source is written for. Where
  C++ leaves an `int` operation undefined the model takes what the x86-64
  instructions do: a conversion from `double` that does not fit gives
  `INT_MIN` (`cvttsd2si`), and the negation of `INT_MIN` is `INT_MIN`.
* A `_TCHAR` string is a `String`, a null pointer to one is `none`.
* `_tcstod` and `_tcstoul` are the C library functions `strtod` and `strtoul`:
  they are not part of the program and are modelled after their contract in
  the C standard, in the C locale (`tcstod`, `tcstoul`).
* The command line is the list `argv`, with the program name at its head and
  `argc = argv.length`.
* PDFium, GDI and `SaveBitmapToFile` are external collaborators: their
  outcomes are read from an `Env` record and every call is appended to a
  trace of `Event`s.
-/

namespace Pdf2bmp

/-! ## Numeric types -/

/-- A `double`: a finite value, held as the rational it denotes, an infinity
with its sign, or a NaN. -/
inductive Double where
  | finite (q : ℚ)
  | infinity (negative : Bool)
  | nan
deriving DecidableEq

/-- The quotient `n / d` rounded to the nearest integer, a tie going to the
even one. -/
def roundNearestEven (n d : Nat) : Nat :=
  if 2 * (n % d) < d then n / d
  else if d < 2 * (n % d) then n / d + 1
  else if (n / d) % 2 = 0 then n / d
  else n / d + 1

/-- The auxiliary of `log2`, with fuel. -/
def log2Aux : Nat → Nat → Nat
  | 0, _ => 0
  | fuel + 1, n => if n < 2 then 0 else log2Aux fuel (n / 2) + 1

/-- The position of the leading bit of a positive `n`: `2^(log2 n) <= n < 2^(log2 n + 1)`. -/
def log2 (n : Nat) : Nat :=
  log2Aux n n

/-- The exponent `e` with `2^e <= n / d < 2^(e+1)`, for positive `n` and `d`. -/
def floorLog2 (n d : Nat) : Int :=
  let e0 : Int := (log2 n : Int) - (log2 d : Int)
  if (if 0 ≤ e0 then n < d * 2 ^ e0.toNat else n * 2 ^ (-e0).toNat < d) then e0 - 1 else e0

/-- The rational `q` rounded to binary64, to nearest and ties to even. With
`e` the exponent of `q`, the unit in the last place is `2^p` for
`p = max e (-1022) - 52` (53 significant bits, gradual underflow below
`2^(-1022)`), and `q` is rounded to a multiple `m * 2^p`; a rounded magnitude of
`2^1024` or more overflows to the infinity of the sign of `q`. -/
def round64 (q : ℚ) : Double :=
  if q = 0 then Double.finite 0
  else
    let n := q.num.natAbs
    let d := q.den
    let p : Int := max (floorLog2 n d) (-1022) - 52
    let m : Nat :=
      if 0 ≤ p then roundNearestEven n (d * 2 ^ p.toNat)
      else roundNearestEven (n * 2 ^ (-p).toNat) d
    if 0 ≤ p ∧ 2 ^ 1024 ≤ m * 2 ^ p.toNat then Double.infinity (decide (q < 0))
    else
      let v : ℚ :=
        if 0 ≤ p then ((m * 2 ^ p.toNat : Nat) : ℚ)
        else (m : ℚ) / ((2 ^ (-p).toNat : Nat) : ℚ)
      Double.finite (if q < 0 then -v else v)

namespace Double

/-- The product `x * y` of two doubles. -/
def mul : Double → Double → Double
  | finite a, finite b => round64 (a * b)
  | finite a, infinity n => if a = 0 then nan else infinity (if a < 0 then !n else n)
  | infinity n, finite b => if b = 0 then nan else infinity (if b < 0 then !n else n)
  | infinity m, infinity n => infinity (m != n)
  | _, _ => nan

/-- The quotient `x / y` of two doubles (a zero divisor is taken as `+0.0`). -/
def div : Double → Double → Double
  | finite a, finite b =>
    if b = 0 then (if a = 0 then nan else infinity (decide (a < 0))) else round64 (a / b)
  | finite _, infinity _ => finite 0
  | infinity n, finite b => infinity (if b < 0 then !n else n)
  | _, _ => nan

instance : Mul Double := ⟨mul⟩
instance : Div Double := ⟨div⟩

end Double

/-- The least value of `int`. -/
def INT_MIN : Int := -2147483648

/-- The greatest value of `int`. -/
def INT_MAX : Int := 2147483647

/-- The greatest value of `unsigned long`. -/
def ULONG_MAX : Nat := 4294967295

/-- The conversion `static_cast<int>(x)` of a double: the fractional part is
discarded (truncation toward zero). When the truncated value is not
representable in `int`, and for an infinity or a NaN, the behaviour is
undefined in C++; the result is then `INT_MIN`, as the x86-64 conversion
instruction `cvttsd2si` gives. -/
def static_cast_int : Double → Int
  | Double.finite q =>
    let t := Int.tdiv q.num q.den
    if INT_MIN ≤ t ∧ t ≤ INT_MAX then t else INT_MIN
  | _ => INT_MIN

/-- The negation `-x` of an `int`: two's complement, so that `-INT_MIN` is `INT_MIN`. -/
def int_neg (x : Int) : Int :=
  if x = INT_MIN then INT_MIN else -x

/-- The conversion of an `unsigned long` value to `int` (modulo `2^32`). -/
def ulong_to_int (u : Nat) : Int :=
  if u % (ULONG_MAX + 1) ≤ 2147483647 then ((u % (ULONG_MAX + 1) : Nat) : Int)
  else ((u % (ULONG_MAX + 1) : Nat) : Int) - 4294967296

/-- The `unsigned long` difference `a - b` (modulo `2^32`). -/
def ulong_sub (a b : Nat) : Nat :=
  (a % (ULONG_MAX + 1) + (ULONG_MAX + 1) - b % (ULONG_MAX + 1)) % (ULONG_MAX + 1)

/-! ## Page geometry -/

/-- The function `GetPDFPageSizeInPixels(doc, page_index, dpi_x, dpi_y,
width_pixels, height_pixels)`. The argument `FPDF_GetPageSizeByIndex` is the
size query of the loaded document (page index to width and height in points).
The result is the pair `(width_pixels, height_pixels)`. -/
def GetPDFPageSizeInPixels (FPDF_GetPageSizeByIndex : Int → Double × Double)
    (page_index : Int) (dpi_x dpi_y : Double) : Int × Int :=
  let width_points := (FPDF_GetPageSizeByIndex page_index).1
  let height_points := (FPDF_GetPageSizeByIndex page_index).2
  (static_cast_int (width_points * dpi_x / Double.finite 72),
    static_cast_int (height_points * dpi_y / Double.finite 72))

/-! ## The C library: `strtoul` and `strtod` -/

/-- The C locale `isspace`: space, `\t`, `\n`, `\v`, `\f`, `\r`. -/
def isspace (c : Char) : Bool :=
  c.toNat == 32 || (9 ≤ c.toNat && c.toNat ≤ 13)

/-- The C `isxdigit`. -/
def isxdigit (c : Char) : Bool :=
  c.isDigit || (97 ≤ c.toNat && c.toNat ≤ 102) || (65 ≤ c.toNat && c.toNat ≤ 70)

/-- The C `isalnum` or underscore: the characters of a NaN payload. -/
def isnchar (c : Char) : Bool :=
  c.isAlphanum || c == '_'

/-- The value of a hexadecimal (hence also decimal) digit. -/
def digitValue (c : Char) : Nat :=
  if c.isDigit then c.toNat - 48
  else if 97 ≤ c.toNat then c.toNat - 87
  else c.toNat - 55

/-- The number written by a digit sequence in the given base. -/
def digitsValue (base : Nat) (ds : List Char) : Nat :=
  ds.foldl (fun n c => base * n + digitValue c) 0

/-- Whether the string starts with an optional sign character. -/
def hasSign (s : List Char) : Bool :=
  s.head? == some '-' || s.head? == some '+'

/-- The call `_tcstoul(nptr, &endptr, 10)`: the converted value and the string at
`endptr`. White space is skipped, a sign is accepted, then the longest run of
decimal digits is converted; a value above `ULONG_MAX` gives `ULONG_MAX`, a
minus sign negates modulo `2^32`. Without a digit nothing is converted: the
value is `0` and `endptr` is `nptr`. -/
def tcstoul (nptr : List Char) : Nat × List Char :=
  let s := nptr.dropWhile isspace
  let negative := s.head? == some '-'
  let body := if hasSign s then s.tail else s
  let ds := body.takeWhile Char.isDigit
  if ds = [] then (0, nptr)
  else
    let v := digitsValue 10 ds
    let r := if v > ULONG_MAX then ULONG_MAX
      else if negative then (ULONG_MAX + 1 - v) % (ULONG_MAX + 1) else v
    (r, body.dropWhile Char.isDigit)

/-- When `s` starts with the lower-case word `kw`, letter case ignored, the
rest of `s` after it. -/
def matchKeyword : List Char → List Char → Option (List Char)
  | [], s => some s
  | _ :: _, [] => none
  | k :: ks, c :: cs => if c.toLower = k then matchKeyword ks cs else none

/-- An optional exponent part: the marker letter (`e` or `p`), an optional
sign and a non-empty run of decimal digits. The result is the exponent and
the rest; a malformed exponent part is not consumed. -/
def scanExponent (marker : Char) (s : List Char) : Int × List Char :=
  match s with
  | [] => (0, s)
  | c :: t =>
    if c.toLower = marker then
      let body := if hasSign t then t.tail else t
      let ds := body.takeWhile Char.isDigit
      if ds = [] then (0, s)
      else
        (if t.head? == some '-' then -(digitsValue 10 ds : Int) else (digitsValue 10 ds : Int),
          body.dropWhile Char.isDigit)
    else (0, s)

/-- The rational `b ^ e` for an integer exponent. -/
def scale (b : ℚ) (e : Int) : ℚ :=
  if 0 ≤ e then b ^ e.toNat else 1 / b ^ (-e).toNat

/-- A run of digits with an optional radix point and an optional exponent
part, at least one digit being required: the digits are those accepted by
`isdig`, in base `base`; the exponent marker is `marker` and scales by powers
of `ebase`, each fractional digit counting `shift` such powers. -/
def scanMantissa (isdig : Char → Bool) (base : Nat) (marker : Char) (ebase : ℚ) (shift : Nat)
    (s : List Char) : Option (ℚ × List Char) :=
  let ip := s.takeWhile isdig
  let s1 := s.dropWhile isdig
  let fp := if s1.head? == some '.' then s1.tail.takeWhile isdig else []
  let s2 := if s1.head? == some '.' then s1.tail.dropWhile isdig else s1
  if ip = [] ∧ fp = [] then none
  else
    let er := scanExponent marker s2
    some ((digitsValue base (ip ++ fp) : ℚ)
        * scale ebase (er.1 - ((shift * fp.length : Nat) : Int)), er.2)

/-- A decimal floating constant. -/
def scanDecimal (s : List Char) : Option (ℚ × List Char) :=
  scanMantissa Char.isDigit 10 'e' 10 1 s

/-- A hexadecimal floating constant, `0x` included. -/
def scanHex (s : List Char) : Option (ℚ × List Char) :=
  match matchKeyword ['0', 'x'] s with
  | none => none
  | some t => scanMantissa isxdigit 16 'p' 2 4 t

/-- The optional `(n-char-sequence)` after `nan`: the rest after it. -/
def scanNanPayload (s : List Char) : List Char :=
  match s with
  | '(' :: t =>
    match t.dropWhile isnchar with
    | ')' :: r => r
    | _ => s
  | _ => s

/-- The call `_tcstod(nptr, &endptr)`: the converted value and the string at `endptr`.
White space is skipped and a sign accepted; then `infinity` or `inf`, `nan`
with an optional payload, a hexadecimal or a decimal floating constant is
converted, the longest match being taken; the value is the number written,
correctly rounded to binary64 (an infinity on overflow). When none is present
nothing is converted: the value is `0` and `endptr` is `nptr`. -/
def tcstod (nptr : List Char) : Double × List Char :=
  let s := nptr.dropWhile isspace
  let negative := s.head? == some '-'
  let body := if hasSign s then s.tail else s
  match matchKeyword "infinity".toList body with
  | some r => (Double.infinity negative, r)
  | none =>
  match matchKeyword "inf".toList body with
  | some r => (Double.infinity negative, r)
  | none =>
  match matchKeyword "nan".toList body with
  | some r => (Double.nan, scanNanPayload r)
  | none =>
  match scanHex body with
  | some (v, r) => (round64 (if negative then -v else v), r)
  | none =>
  match scanDecimal body with
  | some (v, r) => (round64 (if negative then -v else v), r)
  | none => (Double.finite 0, nptr)

/-! ## The command line parser -/

/-- The global variables of the program. A null `g_in_file` or `g_out_file`
is `none`. -/
structure Globals where
  g_in_file : Option String
  g_out_file : Option String
  g_usage : Bool
  g_version : Bool
  g_dpi : Double
  g_page : Int
deriving DecidableEq

/-- The initial values of the global variables. -/
def Globals.initial : Globals where
  g_in_file := none
  g_out_file := none
  g_usage := false
  g_version := false
  g_dpi := Double.finite 72
  g_page := 0

/-- The status of the parser. -/
inductive RET where
  | RET_OK
  | RET_INVALID_ARGUMENTS
deriving DecidableEq

/-- The loop of `pdf2bmp_parse_cmdline` over the tokens `argv[iarg]`, ...,
`argv[argc-1]` that remain, from the current values of the global variables.
The result is the returned status and the values of the global variables on
return. -/
def parse_loop : List String → Globals → RET × Globals
  | [], g => (RET.RET_OK, g)
  | arg :: rest, g =>
    if arg = "--help" ∨ arg = "/?" then
      parse_loop rest { g with g_usage := true }
    else if arg = "--version" then
      parse_loop rest { g with g_version := true }
    else if arg = "--dpi" then
      match rest with
      | [] => (RET.RET_INVALID_ARGUMENTS, g)
      | value :: rest2 =>
        let r := tcstod value.toList
        if r.2 ≠ [] then (RET.RET_INVALID_ARGUMENTS, { g with g_dpi := r.1 })
        else parse_loop rest2 { g with g_dpi := r.1 }
    else if arg = "--page" then
      match rest with
      | [] => (RET.RET_INVALID_ARGUMENTS, g)
      | value :: rest2 =>
        let r := tcstoul value.toList
        if r.2 ≠ [] then
          (RET.RET_INVALID_ARGUMENTS, { g with g_page := ulong_to_int (ulong_sub r.1 1) })
        else parse_loop rest2 { g with g_page := ulong_to_int (ulong_sub r.1 1) }
    else if g.g_in_file = none then
      parse_loop rest { g with g_in_file := some arg }
    else if g.g_out_file = none then
      parse_loop rest { g with g_out_file := some arg }
    else (RET.RET_INVALID_ARGUMENTS, g)

/-- The function `pdf2bmp_parse_cmdline(argc, argv)` with `argc = argv.length`,
run on the initial global variables: the loop starts at `argv[1]`. -/
def pdf2bmp_parse_cmdline (argv : List String) : RET × Globals :=
  parse_loop (argv.drop 1) Globals.initial

/-! ## The driver -/

/-- The outcomes of the external collaborators in one run. A handle is
represented by whether it is non-null. -/
structure Env where
  /-- The value of `FPDF_GetLastError()` after the library initialisation. -/
  FPDF_GetLastError : Nat
  /-- Whether `FPDF_LoadDocument` returns a document for the path. -/
  FPDF_LoadDocument : String → Bool
  /-- The width and height in points of the page of the given index. -/
  FPDF_GetPageSizeByIndex : Int → Double × Double
  /-- Whether `FPDF_LoadPage` returns a page for the index. -/
  FPDF_LoadPage : Int → Bool
  /-- Whether `CreateCompatibleDC` returns a device context. -/
  CreateCompatibleDC : Bool
  /-- Whether `CreateDIBSection` returns a bitmap for `biWidth`, `biHeight`. -/
  CreateDIBSection : Int → Int → Bool
  /-- Whether `SaveBitmapToFile` succeeds for the path. -/
  SaveBitmapToFile : String → Bool

/-- The observable steps of a run: console output and collaborator calls,
with the arguments that matter. -/
inductive Event where
  | stderr (message : String)
  | pdf2bmp_usage
  | pdf2bmp_version
  | FPDF_InitLibraryWithConfig
  | FPDF_GetLastError
  | FPDF_LoadDocument (path : String)
  | FPDF_GetPageSizeByIndex (page_index : Int)
  | FPDF_LoadPage (page_index : Int)
  | CreateCompatibleDC
  | CreateDIBSection (biWidth biHeight : Int) (biBitCount : Nat)
  | SelectObject
  | FillRect (right bottom : Int)
  | FPDF_RenderPage (size_x size_y : Int)
  | DeleteDC (hDC : Bool)
  | SaveBitmapToFile (path : String) (hbm : Bool)
  | DeleteObject (hbm : Bool)
  | FPDF_ClosePage
  | FPDF_CloseDocument
  | FPDF_DestroyLibrary
deriving DecidableEq

/-- The function `Create24BppBitmap(hDC, width, height)`: the bitmap handle
and the call made, a `CreateDIBSection` of width `width`, height `-height`
(a top-down bitmap) and 24 bits per pixel. -/
def Create24BppBitmap (env : Env) (width height : Int) : Bool × List Event :=
  (env.CreateDIBSection width (int_neg height),
    [Event.CreateDIBSection width (int_neg height) 24])

/-- The function `pdf2bmp_main(argc, argv)` with `argc = argv.length`: the
returned status and the trace of the run. -/
def pdf2bmp_main (env : Env) (argv : List String) : Int × List Event :=
  if argv.length ≤ 1 then
    (1, [Event.stderr "ERROR: No arguments\n", Event.pdf2bmp_usage])
  else
    let parsed := pdf2bmp_parse_cmdline argv
    let g := parsed.2
    if parsed.1 ≠ RET.RET_OK then
      (1, [Event.stderr "ERROR: Invalid arguments\n", Event.pdf2bmp_usage])
    else if g.g_usage then
      (0, [Event.pdf2bmp_usage])
    else if g.g_version then
      (0, [Event.pdf2bmp_version])
    else
      match g.g_in_file with
      | none => (1, [Event.stderr "ERROR: No input file specified\n", Event.pdf2bmp_usage])
      | some in_file =>
      match g.g_out_file with
      | none => (1, [Event.stderr "ERROR: No output file specified\n", Event.pdf2bmp_usage])
      | some out_file =>
      if g.g_page < 0 then
        (1, [Event.stderr "ERROR: Invalid page number\n", Event.pdf2bmp_usage])
      else
        let t1 := [Event.FPDF_InitLibraryWithConfig, Event.FPDF_GetLastError]
        if env.FPDF_GetLastError ≠ 0 then
          (1, t1 ++ [Event.stderr "ERROR: Failed to initialize PDFium library.\n"])
        else
          let t2 := t1 ++ [Event.FPDF_LoadDocument in_file]
          if env.FPDF_LoadDocument in_file = false then
            (1, t2 ++
              [Event.stderr ("ERROR: Failed to load PDF document: " ++ in_file ++ "\n"),
                Event.FPDF_DestroyLibrary])
          else
            let page_index : Int := 0
            let t3 := t2 ++ [Event.FPDF_GetPageSizeByIndex page_index]
            let size :=
              GetPDFPageSizeInPixels env.FPDF_GetPageSizeByIndex page_index g.g_dpi g.g_dpi
            let width_pixels := size.1
            let height_pixels := size.2
            let t4 := t3 ++ [Event.FPDF_LoadPage g.g_page]
            if env.FPDF_LoadPage g.g_page = false then
              (1, t4 ++ [Event.stderr "ERROR: Failed to load PDF page.\n",
                Event.FPDF_CloseDocument, Event.FPDF_DestroyLibrary])
            else
              let hDC := env.CreateCompatibleDC
              let hbm := Create24BppBitmap env width_pixels height_pixels
              let t5 := t4 ++ [Event.CreateCompatibleDC] ++ hbm.2 ++
                [Event.SelectObject, Event.FillRect width_pixels height_pixels,
                  Event.FPDF_RenderPage width_pixels height_pixels,
                  Event.SelectObject, Event.DeleteDC hDC,
                  Event.SaveBitmapToFile out_file hbm.1,
                  Event.DeleteObject hbm.1, Event.FPDF_ClosePage,
                  Event.FPDF_CloseDocument, Event.FPDF_DestroyLibrary]
              if env.SaveBitmapToFile out_file = false then
                (1, t5 ++
                  [Event.stderr ("ERROR: Unable to save bitmap: " ++ out_file ++ "\n")])
              else (0, t5)

/-! ## Notions used to state the properties -/

/-- A token that asks for the usage text or the version: `--help`, `/?`, `--version`. -/
def isHelpToken (t : String) : Prop :=
  t = "--help" ∨ t = "/?" ∨ t = "--version"

instance (t : String) : Decidable (isHelpToken t) := by
  unfold isHelpToken
  infer_instance

/-- The positional tokens of an argument list, read left to right: the tokens
that are neither a flag (`--help`, `/?`, `--version`, `--dpi`, `--page`) nor the
token that follows a `--dpi` or `--page` flag as its value. -/
def positionals : List String → List String
  | [] => []
  | arg :: rest =>
    if arg = "--help" ∨ arg = "/?" ∨ arg = "--version" then positionals rest
    else if arg = "--dpi" ∨ arg = "--page" then
      match rest with
      | [] => []
      | _ :: rest2 => positionals rest2
    else arg :: positionals rest

/-- The values given to the `--page` flags of an argument list, read left to
right: the tokens that follow a `--page` flag as its value. -/
def pageValues : List String → List String
  | [] => []
  | arg :: rest =>
    if arg = "--page" then
      match rest with
      | [] => []
      | value :: rest2 => value :: pageValues rest2
    else if arg = "--dpi" then
      match rest with
      | [] => []
      | _ :: rest2 => pageValues rest2
    else pageValues rest

/-- The zero-based index stored for a `--page` value: the converted number
minus one as `unsigned long`, converted to `int`. -/
def storedPageIndex (value : String) : Int :=
  ulong_to_int (ulong_sub (tcstoul value.toList).1 1)

/-- Console output, as opposed to a call of PDFium, GDI or `SaveBitmapToFile`. -/
def Event.isConsole : Event → Bool
  | Event.stderr _ => true
  | Event.pdf2bmp_usage => true
  | Event.pdf2bmp_version => true
  | _ => false

/-- A call of `SaveBitmapToFile`, the only step that writes a file. -/
def Event.isSave : Event → Bool
  | Event.SaveBitmapToFile _ _ => true
  | _ => false

/-- An argument list is accepted when the parser returns `RET_OK`, neither the
usage nor the version is asked for, both paths are given and the page index is
not negative: `pdf2bmp_main` then goes on to initialise PDFium. -/
def accepted (argv : List String) : Prop :=
  2 ≤ argv.length ∧ (pdf2bmp_parse_cmdline argv).1 = RET.RET_OK ∧
    (pdf2bmp_parse_cmdline argv).2.g_usage = false ∧
    (pdf2bmp_parse_cmdline argv).2.g_version = false ∧
    (pdf2bmp_parse_cmdline argv).2.g_in_file ≠ none ∧
    (pdf2bmp_parse_cmdline argv).2.g_out_file ≠ none ∧
    0 ≤ (pdf2bmp_parse_cmdline argv).2.g_page

/-- The resources a run acquires and releases. -/
inductive Resource where
  | library
  | document
  | page
  | deviceContext
  | bitmap
deriving DecidableEq

/-- The resources successfully acquired along a trace, in order of acquisition.
The library counts as acquired when `FPDF_GetLastError` reports no error. -/
def acquired (env : Env) : List Event → List Resource
  | [] => []
  | Event.FPDF_InitLibraryWithConfig :: tr =>
    (if env.FPDF_GetLastError = 0 then [Resource.library] else []) ++ acquired env tr
  | Event.FPDF_LoadDocument path :: tr =>
    (if env.FPDF_LoadDocument path then [Resource.document] else []) ++ acquired env tr
  | Event.FPDF_LoadPage page_index :: tr =>
    (if env.FPDF_LoadPage page_index then [Resource.page] else []) ++ acquired env tr
  | Event.CreateCompatibleDC :: tr =>
    (if env.CreateCompatibleDC then [Resource.deviceContext] else []) ++ acquired env tr
  | Event.CreateDIBSection biWidth biHeight _ :: tr =>
    (if env.CreateDIBSection biWidth biHeight then [Resource.bitmap] else []) ++ acquired env tr
  | _ :: tr => acquired env tr

/-- The resources released along a trace, in order of release. A `DeleteDC`
or `DeleteObject` on a null handle releases nothing. -/
def released : List Event → List Resource
  | [] => []
  | Event.DeleteDC hDC :: tr => (if hDC then [Resource.deviceContext] else []) ++ released tr
  | Event.DeleteObject hbm :: tr => (if hbm then [Resource.bitmap] else []) ++ released tr
  | Event.FPDF_ClosePage :: tr => Resource.page :: released tr
  | Event.FPDF_CloseDocument :: tr => Resource.document :: released tr
  | Event.FPDF_DestroyLibrary :: tr => Resource.library :: released tr
  | _ :: tr => released tr

/-- The steps of a run that matter for the resources: a successful
acquisition, a release, the rendering of the page and the save of the bitmap. -/
inductive Step where
  | acquire (r : Resource)
  | release (r : Resource)
  | render
  | save
deriving DecidableEq

/-- The steps of a trace, in the order of the trace. A failed acquisition is
no step, nor is a `DeleteDC` or `DeleteObject` on a null handle. -/
def steps (env : Env) : List Event → List Step
  | [] => []
  | Event.FPDF_InitLibraryWithConfig :: tr =>
    (if env.FPDF_GetLastError = 0 then [Step.acquire Resource.library] else []) ++ steps env tr
  | Event.FPDF_LoadDocument path :: tr =>
    (if env.FPDF_LoadDocument path then [Step.acquire Resource.document] else [])
      ++ steps env tr
  | Event.FPDF_LoadPage page_index :: tr =>
    (if env.FPDF_LoadPage page_index then [Step.acquire Resource.page] else []) ++ steps env tr
  | Event.CreateCompatibleDC :: tr =>
    (if env.CreateCompatibleDC then [Step.acquire Resource.deviceContext] else [])
      ++ steps env tr
  | Event.CreateDIBSection biWidth biHeight _ :: tr =>
    (if env.CreateDIBSection biWidth biHeight then [Step.acquire Resource.bitmap] else [])
      ++ steps env tr
  | Event.FPDF_RenderPage _ _ :: tr => Step.render :: steps env tr
  | Event.DeleteDC hDC :: tr =>
    (if hDC then [Step.release Resource.deviceContext] else []) ++ steps env tr
  | Event.SaveBitmapToFile _ _ :: tr => Step.save :: steps env tr
  | Event.DeleteObject hbm :: tr =>
    (if hbm then [Step.release Resource.bitmap] else []) ++ steps env tr
  | Event.FPDF_ClosePage :: tr => Step.release Resource.page :: steps env tr
  | Event.FPDF_CloseDocument :: tr => Step.release Resource.document :: steps env tr
  | Event.FPDF_DestroyLibrary :: tr => Step.release Resource.library :: steps env tr
  | _ :: tr => steps env tr

/-- Whether, along the steps and from the resources `held`, every acquisition
is of a resource not held, every release is of a resource held, and no
resource is held at the end. -/
def balanced : List Step → List Resource → Bool
  | [], held => held.isEmpty
  | Step.acquire r :: t, held => !held.contains r && balanced t (r :: held)
  | Step.release r :: t, held => held.contains r && balanced t (held.erase r)
  | _ :: t, held => balanced t held

/-- The steps of a run that reaches the rendering, `dc` and `bmp` telling
whether the device context and the bitmap were obtained: the library, the
document and the page are acquired, then the device context and the bitmap;
the page is rendered; the device context is released; the bitmap is saved and
released; the page, the document and the library are released. -/
def fullRun (dc bmp : Bool) : List Step :=
  [Step.acquire Resource.library, Step.acquire Resource.document, Step.acquire Resource.page]
    ++ (if dc then [Step.acquire Resource.deviceContext] else [])
    ++ (if bmp then [Step.acquire Resource.bitmap] else [])
    ++ [Step.render]
    ++ (if dc then [Step.release Resource.deviceContext] else [])
    ++ [Step.save]
    ++ (if bmp then [Step.release Resource.bitmap] else [])
    ++ [Step.release Resource.page, Step.release Resource.document,
      Step.release Resource.library]

/-- A double whose truncation toward zero is representable in `int`. -/
def Double.fitsInt : Double → Prop
  | Double.finite q => (-2147483649 : ℚ) < q ∧ q < 2147483648
  | _ => False

/-- The double nearest to 841.92, the width in points of an A4 landscape page. -/
def a4Width : ℚ := 7405606637257359 / 8796093022208

/-- A run in which every collaborator succeeds, on a document whose first
page is 72 by 72 points and whose other pages are 144 by 144 points. -/
def Env.twoPages : Env where
  FPDF_GetLastError := 0
  FPDF_LoadDocument := fun _ => true
  FPDF_GetPageSizeByIndex := fun page_index =>
    if page_index = 0 then (Double.finite 72, Double.finite 72)
    else (Double.finite 144, Double.finite 144)
  FPDF_LoadPage := fun _ => true
  CreateCompatibleDC := true
  CreateDIBSection := fun _ _ => true
  SaveBitmapToFile := fun _ => true

/-- A run in which the document cannot be loaded. -/
def Env.noDocument : Env where
  FPDF_GetLastError := 0
  FPDF_LoadDocument := fun _ => false
  FPDF_GetPageSizeByIndex := fun _ => (Double.finite 72, Double.finite 72)
  FPDF_LoadPage := fun _ => true
  CreateCompatibleDC := true
  CreateDIBSection := fun _ _ => true
  SaveBitmapToFile := fun _ => true

/-- A flag of the command line. -/
def isFlag (t : String) : Prop :=
  t = "--help" ∨ t = "/?" ∨ t = "--version" ∨ t = "--dpi" ∨ t = "--page"

/-- How many of the two paths are set. -/
def filled (g : Globals) : Nat :=
  (if g.g_in_file = none then 0 else 1) + (if g.g_out_file = none then 0 else 1)

/-- The flag at position `i` of the tokens is a `--dpi` or `--page` that is
the last token, or that is followed by a token which its conversion function
(`_tcstod` for `--dpi`, `_tcstoul` for `--page`) does not convert up to the end. -/
def lacksValue (args : List String) (i : Nat) : Prop :=
  (args[i]? = some "--dpi" ∧
    (args[i + 1]? = none ∨ ∃ v, args[i + 1]? = some v ∧ (tcstod v.toList).2 ≠ [])) ∨
  (args[i]? = some "--page" ∧
    (args[i + 1]? = none ∨ ∃ v, args[i + 1]? = some v ∧ (tcstoul v.toList).2 ≠ []))

/-- A trace of console output only: no call of PDFium, GDI or `SaveBitmapToFile`. -/
def consoleOnly (tr : List Event) : Prop :=
  ∀ e ∈ tr, e.isConsole = true

/-- The trace of `pdf2bmp in.pdf out.bmp` when every collaborator succeeds and
the first page is 72 by 72 points. -/
def successTrace : List Event :=
  [Event.FPDF_InitLibraryWithConfig, Event.FPDF_GetLastError,
    Event.FPDF_LoadDocument "in.pdf", Event.FPDF_GetPageSizeByIndex 0,
    Event.FPDF_LoadPage 0, Event.CreateCompatibleDC, Event.CreateDIBSection 72 (-72) 24,
    Event.SelectObject, Event.FillRect 72 72, Event.FPDF_RenderPage 72 72,
    Event.SelectObject, Event.DeleteDC true, Event.SaveBitmapToFile "out.bmp" true,
    Event.DeleteObject true, Event.FPDF_ClosePage, Event.FPDF_CloseDocument,
    Event.FPDF_DestroyLibrary]

/-! ## Rounding to binary64 -/

theorem log2Aux_spec (fuel : Nat) : ∀ n : Nat, n ≤ fuel → 0 < n →
    2 ^ log2Aux fuel n ≤ n ∧ n < 2 ^ (log2Aux fuel n + 1) := by
  induction fuel with
  | zero => intro n h1 h2; omega
  | succ fuel ih =>
    intro n hle hpos
    unfold log2Aux
    by_cases h2 : n < 2
    · rw [if_pos h2]
      constructor
      · simpa using hpos
      · simpa using h2
    · rw [if_neg h2]
      have hhalf := ih (n / 2) (by omega) (by omega)
      constructor
      · have := hhalf.1
        rw [pow_succ]
        omega
      · have := hhalf.2
        rw [pow_succ]
        omega

/-- The leading bit position: `2^(log2 n) <= n < 2^(log2 n + 1)` for positive `n`. -/
theorem log2_spec (n : Nat) (h : 0 < n) : 2 ^ log2 n ≤ n ∧ n < 2 ^ (log2 n + 1) :=
  log2Aux_spec n n (le_refl _) h

/-- Below `2^53` the exponent is at most 52. -/
theorem floorLog2_le (n d : Nat) (hn : 0 < n) (hd : 0 < d) (h : n < d * 2 ^ 53) :
    floorLog2 n d ≤ 52 := by
  have ha := (log2_spec n hn).1
  have hb := (log2_spec d hd).2
  have he0 : (log2 n : Int) - (log2 d : Int) ≤ 53 := by
    by_contra hcon
    have hab : log2 d + 54 ≤ log2 n := by omega
    have h1 : 2 ^ (log2 d + 54) ≤ 2 ^ log2 n := Nat.pow_le_pow_right (by decide) hab
    have h2 : d * 2 ^ 53 < 2 ^ (log2 d + 1) * 2 ^ 53 :=
      Nat.mul_lt_mul_of_pos_right hb (by positivity)
    have h3 : 2 ^ (log2 d + 1) * 2 ^ 53 = 2 ^ (log2 d + 54) := by
      rw [← pow_add]
    omega
  unfold floorLog2
  by_cases h53 : (log2 n : Int) - (log2 d : Int) = 53
  · have hcond : (if (0 : Int) ≤ (log2 n : Int) - (log2 d : Int)
        then n < d * 2 ^ ((log2 n : Int) - (log2 d : Int)).toNat
        else n * 2 ^ (-((log2 n : Int) - (log2 d : Int))).toNat < d) := by
      rw [if_pos (by omega), h53]
      exact h
    simp only [hcond, if_true]
    omega
  · dsimp only
    split_ifs <;> omega

/-- The rounded quotient is within one half of the quotient. -/
theorem roundNearestEven_error (n d : Nat) (hd : 0 < d) :
    2 * (roundNearestEven n d * d) ≤ 2 * n + d
      ∧ 2 * n ≤ 2 * (roundNearestEven n d * d) + d := by
  have hdm := Nat.div_add_mod n d
  have hmod := Nat.mod_lt n hd
  have hx : n / d * d = d * (n / d) := Nat.mul_comm _ _
  have hx1 : (n / d + 1) * d = d * (n / d) + d := by
    rw [Nat.add_mul, Nat.one_mul, hx]
  unfold roundNearestEven
  split_ifs
  · rw [hx]
    omega
  · rw [hx1]
    omega
  · rw [hx]
    omega
  · rw [hx1]
    omega

/-- A value in `[0, 2^53)` rounds to a finite double at most one half away. -/
theorem round64_error (x : ℚ) (h0 : 0 ≤ x) (hlt : x < 2 ^ 53) :
    ∃ v : ℚ, round64 x = Double.finite v ∧ 0 ≤ v ∧ |v - x| ≤ 1 / 2 := by
  by_cases hx0 : x = 0
  · refine ⟨0, by rw [hx0]; rfl, le_refl _, ?_⟩
    rw [hx0]
    norm_num
  have hneg : ¬ x < 0 := not_lt.2 h0
  have hnum : 0 < x.num := Rat.num_pos.2 (lt_of_le_of_ne h0 (Ne.symm hx0))
  have hdpos : 0 < x.den := x.den_pos
  have hnat : (x.num.natAbs : Int) = x.num := Int.natAbs_of_nonneg (le_of_lt hnum)
  have hnpos : 0 < x.num.natAbs := Int.natAbs_pos.2 (ne_of_gt hnum)
  have hxq : x = (x.num.natAbs : ℚ) / (x.den : ℚ) := by
    have h1 : ((x.num.natAbs : Int) : ℚ) = (x.num : ℚ) := by rw [hnat]
    have h2 : ((x.num.natAbs : Int) : ℚ) = (x.num.natAbs : ℚ) := Int.cast_natCast _
    rw [← h2, h1]
    exact (Rat.num_div_den x).symm
  have hdq : (0 : ℚ) < (x.den : ℚ) := by exact_mod_cast hdpos
  have hlt2 : x.num.natAbs < x.den * 2 ^ 53 := by
    have h1 : (x.num.natAbs : ℚ) / (x.den : ℚ) < 2 ^ 53 := by rw [← hxq]; exact hlt
    have h2 : (x.num.natAbs : ℚ) < 2 ^ 53 * (x.den : ℚ) := (div_lt_iff₀ hdq).1 h1
    have h3 : ((x.num.natAbs : Nat) : ℚ) < ((x.den * 2 ^ 53 : Nat) : ℚ) := by
      push_cast
      linarith
    exact_mod_cast h3
  have hp : max (floorLog2 x.num.natAbs x.den) (-1022) - 52 ≤ 0 := by
    have := floorLog2_le _ _ hnpos hdpos hlt2
    have h2 : max (floorLog2 x.num.natAbs x.den) (-1022) ≤ 52 := max_le this (by decide)
    omega
  unfold round64
  rw [if_neg hx0]
  dsimp only
  rw [if_neg hneg]
  generalize max (floorLog2 x.num.natAbs x.den) (-1022) - 52 = p at hp
  generalize x.num.natAbs = n at hxq hlt2
  generalize x.den = d at hxq hlt2 hdq hdpos
  have htd : (n : ℚ) / d * d = n := div_mul_cancel₀ _ (ne_of_gt hdq)
  rw [hxq]
  generalize (n : ℚ) / d = t at htd
  by_cases hp0 : 0 ≤ p
  · have hpz : p = 0 := le_antisymm hp hp0
    subst hpz
    simp only [le_refl, if_true, Int.toNat_zero, pow_zero, mul_one, true_and]
    have herr := roundNearestEven_error n d hdpos
    have hm : roundNearestEven n d * d ≤ d * 2 ^ 53 + d := by omega
    have hm2 : roundNearestEven n d ≤ 2 ^ 53 + 1 := by
      have : roundNearestEven n d * d ≤ (2 ^ 53 + 1) * d := by
        rw [Nat.add_mul, Nat.one_mul, Nat.mul_comm (2 ^ 53) d]
        exact hm
      exact Nat.le_of_mul_le_mul_right this hdpos
    have hno : ¬ 2 ^ 1024 ≤ roundNearestEven n d := by
      have : (2 : Nat) ^ 53 + 1 < 2 ^ 1024 := by norm_num
      omega
    rw [if_neg hno]
    refine ⟨_, rfl, by positivity, ?_⟩
    have e1 : ((2 * (roundNearestEven n d * d) : Nat) : ℚ) ≤ ((2 * n + d : Nat) : ℚ) := by
      exact_mod_cast herr.1
    have e2 : ((2 * n : Nat) : ℚ) ≤ ((2 * (roundNearestEven n d * d) + d : Nat) : ℚ) := by
      exact_mod_cast herr.2
    push_cast at e1 e2
    rw [← htd] at e1 e2
    have f1 : 2 * (roundNearestEven n d : ℚ) ≤ 2 * t + 1 := by
      have : 2 * (roundNearestEven n d : ℚ) * d ≤ (2 * t + 1) * d := by linarith
      exact le_of_mul_le_mul_right this hdq
    have f2 : 2 * t ≤ 2 * (roundNearestEven n d : ℚ) + 1 := by
      have : 2 * t * d ≤ (2 * (roundNearestEven n d : ℚ) + 1) * d := by linarith
      exact le_of_mul_le_mul_right this hdq
    rw [abs_le]
    constructor <;> linarith
  · have hand : ¬ (0 ≤ p ∧ 2 ^ 1024 ≤ (if 0 ≤ p then roundNearestEven n (d * 2 ^ p.toNat)
        else roundNearestEven (n * 2 ^ (-p).toNat) d) * 2 ^ p.toNat) := fun h => hp0 h.1
    rw [if_neg hand, if_neg hp0, if_neg hp0]
    generalize (-p).toNat = k
    have herr := roundNearestEven_error (n * 2 ^ k) d hdpos
    have hk : (0 : ℚ) < (2 : ℚ) ^ k := by positivity
    have hk1 : (1 : ℚ) ≤ (2 : ℚ) ^ k := one_le_pow₀ (by norm_num)
    refine ⟨_, rfl, by positivity, ?_⟩
    have e1 : ((2 * (roundNearestEven (n * 2 ^ k) d * d) : Nat) : ℚ)
        ≤ ((2 * (n * 2 ^ k) + d : Nat) : ℚ) := by
      exact_mod_cast herr.1
    have e2 : ((2 * (n * 2 ^ k) : Nat) : ℚ)
        ≤ ((2 * (roundNearestEven (n * 2 ^ k) d * d) + d : Nat) : ℚ) := by
      exact_mod_cast herr.2
    push_cast at e1 e2 ⊢
    rw [← htd] at e1 e2
    generalize (roundNearestEven (n * 2 ^ k) d : ℚ) = m at e1 e2
    generalize (2 : ℚ) ^ k = K at e1 e2 hk hk1
    have f1 : 2 * m ≤ 2 * (t * K) + 1 := by
      have : 2 * m * d ≤ (2 * (t * K) + 1) * d := by linarith
      exact le_of_mul_le_mul_right this hdq
    have f2 : 2 * (t * K) ≤ 2 * m + 1 := by
      have : 2 * (t * K) * d ≤ (2 * m + 1) * d := by linarith
      exact le_of_mul_le_mul_right this hdq
    have hmk : m / K * K = m := div_mul_cancel₀ _ (ne_of_gt hk)
    generalize m / K = v at hmk
    rw [← hmk] at f1 f2
    rw [abs_le]
    constructor
    · have : (-(1 / 2) - (v - t)) * K ≤ 0 := by nlinarith
      have := nonpos_of_mul_nonpos_left this hk
      linarith
    · have : ((v - t) - 1 / 2) * K ≤ 0 := by nlinarith
      have := nonpos_of_mul_nonpos_left this hk
      linarith

/-! ## Page geometry: truncation -/

/-- Rounding a non-negative value gives a non-negative double or `+infinity`. -/
theorem round64_nonneg (q : ℚ) (h : 0 ≤ q) :
    round64 q = Double.infinity false ∨ ∃ v : ℚ, 0 ≤ v ∧ round64 q = Double.finite v := by
  have hneg : ¬ q < 0 := not_lt.2 h
  unfold round64
  by_cases h0 : q = 0
  · right
    exact ⟨0, le_refl _, by rw [if_pos h0]⟩
  · rw [if_neg h0]
    dsimp only
    rw [decide_eq_false hneg, if_neg hneg]
    generalize max (floorLog2 q.num.natAbs q.den) (-1022) - 52 = p
    generalize (if 0 ≤ p then roundNearestEven q.num.natAbs (q.den * 2 ^ p.toNat)
      else roundNearestEven (q.num.natAbs * 2 ^ (-p).toNat) q.den) = m
    by_cases hov : 0 ≤ p ∧ 2 ^ 1024 ≤ m * 2 ^ p.toNat
    · left
      rw [if_pos hov]
    · right
      rw [if_neg hov]
      refine ⟨_, ?_, rfl⟩
      by_cases hp : 0 ≤ p
      · rw [if_pos hp]
        positivity
      · rw [if_neg hp]
        positivity

theorem Double.finite_mul_finite (a b : ℚ) :
    Double.finite a * Double.finite b = round64 (a * b) := rfl

theorem Double.finite_div_72 (a : ℚ) :
    Double.finite a / Double.finite 72 = round64 (a / 72) := by
  show Double.div _ _ = _
  simp [Double.div]

theorem Double.infinity_div_72 (n : Bool) :
    Double.infinity n / Double.finite 72 = Double.infinity n := by
  show Double.div _ _ = _
  simp [Double.div]

/-- The double `points * dpi / 72.0` for non-negative finite `points` and
`dpi` is a non-negative finite double or `+infinity`. -/
theorem scaled_nonneg (w d : ℚ) (hw : 0 ≤ w) (hd : 0 ≤ d) :
    Double.finite w * Double.finite d / Double.finite 72 = Double.infinity false
    ∨ ∃ v : ℚ, 0 ≤ v ∧
        Double.finite w * Double.finite d / Double.finite 72 = Double.finite v := by
  rw [Double.finite_mul_finite]
  rcases round64_nonneg (w * d) (mul_nonneg hw hd) with h | ⟨v, hv, h⟩
  · left
    rw [h, Double.infinity_div_72]
  · rw [h, Double.finite_div_72]
    exact round64_nonneg (v / 72) (by positivity)

/-- On a non-negative value that fits the conversion to `int` is the floor. -/
theorem static_cast_int_of_nonneg (q : ℚ) (h0 : 0 ≤ q) (hfit : ⌊q⌋ ≤ INT_MAX) :
    static_cast_int (Double.finite q) = ⌊q⌋ := by
  have hnum : 0 ≤ q.num := Rat.num_nonneg.2 h0
  have hden : (0 : Int) ≤ (q.den : Int) := Int.natCast_nonneg _
  have ht : Int.tdiv q.num q.den = ⌊q⌋ := by
    rw [Int.tdiv_eq_ediv hnum hden, Rat.floor_def]
  have hfl : 0 ≤ ⌊q⌋ := Int.floor_nonneg.2 h0
  have hmin : INT_MIN ≤ ⌊q⌋ := le_trans (by decide) hfl
  simp only [static_cast_int, ht]
  rw [if_pos ⟨hmin, hfit⟩]

/-- On a non-negative value that does not fit the conversion gives `INT_MIN`. -/
theorem static_cast_int_of_large (q : ℚ) (h0 : 0 ≤ q) (hbig : INT_MAX < ⌊q⌋) :
    static_cast_int (Double.finite q) = INT_MIN := by
  have hnum : 0 ≤ q.num := Rat.num_nonneg.2 h0
  have hden : (0 : Int) ≤ (q.den : Int) := Int.natCast_nonneg _
  have ht : Int.tdiv q.num q.den = ⌊q⌋ := by
    rw [Int.tdiv_eq_ediv hnum hden, Rat.floor_def]
  simp only [static_cast_int, ht]
  rw [if_neg (fun h => absurd h.2 (not_le.2 hbig))]

/-- For `w >= 0`, `d >= 0` with `w * d / 72 < 2^31`, the double
`w * d / 72.0` that the code computes is finite and less than 1 away from the
exact quotient. -/
theorem scaled_error (w d : ℚ) (hw : 0 ≤ w) (hd : 0 ≤ d) (hfit : w * d / 72 < 2147483648) :
    ∃ q : ℚ, Double.finite w * Double.finite d / Double.finite 72 = Double.finite q ∧
      |q - w * d / 72| < 1 := by
  have hwd : 0 ≤ w * d := mul_nonneg hw hd
  have hwd2 : w * d < 2 ^ 53 := by
    have : w * d < 2147483648 * 72 := by
      rw [div_lt_iff₀ (by norm_num)] at hfit
      exact hfit
    linarith [show (2147483648 : ℚ) * 72 < 2 ^ 53 by norm_num]
  obtain ⟨P, hP, hP0, hPe⟩ := round64_error (w * d) hwd hwd2
  have hPe2 := abs_le.1 hPe
  have hP72 : P / 72 < 2 ^ 53 := by
    rw [div_lt_iff₀ (by norm_num)]
    have : w * d < 2147483648 * 72 := by
      rw [div_lt_iff₀ (by norm_num)] at hfit
      exact hfit
    linarith [show (2147483648 : ℚ) * 72 + 1 / 2 < 2 ^ 53 * 72 by norm_num]
  obtain ⟨Q, hQ, _, hQe⟩ := round64_error (P / 72) (by positivity) hP72
  have hQe2 := abs_le.1 hQe
  refine ⟨Q, ?_, ?_⟩
  · rw [Double.finite_mul_finite, hP, Double.finite_div_72, hQ]
  · rw [abs_lt]
    constructor
    · have : w * d / 72 - P / 72 ≤ 1 / 144 := by
        rw [← sub_div, div_le_iff₀ (by norm_num)]
        linarith
      linarith
    · have : P / 72 - w * d / 72 ≤ 1 / 144 := by
        rw [← sub_div, div_le_iff₀ (by norm_num)]
        linarith
      linarith

/-- Two rationals less than 1 apart have floors at most 1 apart. -/
theorem floor_near (a b : ℚ) (h : |a - b| < 1) : |⌊a⌋ - ⌊b⌋| ≤ 1 := by
  have h2 := abs_lt.1 h
  have ha1 := Int.floor_le a
  have ha2 := Int.lt_floor_add_one a
  have hb1 := Int.floor_le b
  have hb2 := Int.lt_floor_add_one b
  rw [abs_le]
  constructor
  · have : ((⌊b⌋ : Int) : ℚ) < (⌊a⌋ : ℚ) + 2 := by linarith
    have : ⌊b⌋ < ⌊a⌋ + 2 := by exact_mod_cast this
    omega
  · have : ((⌊a⌋ : Int) : ℚ) < (⌊b⌋ : ℚ) + 2 := by linarith
    have : ⌊a⌋ < ⌊b⌋ + 2 := by exact_mod_cast this
    omega

/-- C1, as amended: for page sizes `w, h >= 0` in points and DPI values
`dx, dy > 0`, when the doubles `qw = w * dx / 72.0` and `qh = h * dy / 72.0`
that the code computes (product, then quotient, each rounded to the nearest
double) fit in `int`, `GetPDFPageSizeInPixels` yields `floor(qw)` and
`floor(qh)`: the fraction of the quotient is truncated, never rounded. These
are at most 1 away from `floor(w*dx/72)` and `floor(h*dy/72)` when the exact
scaled values fit in `int`, and equal to them whenever the product and the
quotient are exact in double. -/
theorem GetPDFPageSizeInPixels_truncates (query : Int → Double × Double) (page_index : Int)
    (w h dx dy qw qh : ℚ) (hq : query page_index = (Double.finite w, Double.finite h))
    (hdx : 0 < dx) (hdy : 0 < dy) (hw : 0 ≤ w) (hh : 0 ≤ h)
    (hqw : Double.finite w * Double.finite dx / Double.finite 72 = Double.finite qw)
    (hqh : Double.finite h * Double.finite dy / Double.finite 72 = Double.finite qh)
    (hwfit : ⌊qw⌋ ≤ INT_MAX) (hhfit : ⌊qh⌋ ≤ INT_MAX) :
    GetPDFPageSizeInPixels query page_index (Double.finite dx) (Double.finite dy)
      = (⌊qw⌋, ⌊qh⌋)
    ∧ (w * dx / 72 < 2147483648 → |⌊qw⌋ - ⌊w * dx / 72⌋| ≤ 1)
    ∧ (h * dy / 72 < 2147483648 → |⌊qh⌋ - ⌊h * dy / 72⌋| ≤ 1)
    ∧ (round64 (w * dx) = Double.finite (w * dx) →
        round64 (w * dx / 72) = Double.finite (w * dx / 72) → ⌊qw⌋ = ⌊w * dx / 72⌋)
    ∧ (round64 (h * dy) = Double.finite (h * dy) →
        round64 (h * dy / 72) = Double.finite (h * dy / 72) → ⌊qh⌋ = ⌊h * dy / 72⌋) := by
  have hqw0 : 0 ≤ qw := by
    rcases scaled_nonneg w dx hw (le_of_lt hdx) with h1 | ⟨v, hv, h1⟩
    · rw [h1] at hqw
      cases hqw
    · rw [h1] at hqw
      cases hqw
      exact hv
  have hqh0 : 0 ≤ qh := by
    rcases scaled_nonneg h dy hh (le_of_lt hdy) with h1 | ⟨v, hv, h1⟩
    · rw [h1] at hqh
      cases hqh
    · rw [h1] at hqh
      cases hqh
      exact hv
  refine ⟨?_, ?_, ?_, ?_, ?_⟩
  · simp only [GetPDFPageSizeInPixels, hq, hqw, hqh,
      static_cast_int_of_nonneg _ hqw0 hwfit, static_cast_int_of_nonneg _ hqh0 hhfit]
  · intro hfit
    obtain ⟨q, h1, h2⟩ := scaled_error w dx hw (le_of_lt hdx) hfit
    rw [hqw] at h1
    cases h1
    exact floor_near _ _ h2
  · intro hfit
    obtain ⟨q, h1, h2⟩ := scaled_error h dy hh (le_of_lt hdy) hfit
    rw [hqh] at h1
    cases h1
    exact floor_near _ _ h2
  · intro h1 h2
    rw [Double.finite_mul_finite, h1, Double.finite_div_72, h2] at hqw
    cases hqw
    rfl
  · intro h1 h2
    rw [Double.finite_mul_finite, h1, Double.finite_div_72, h2] at hqh
    cases hqh
    rfl

/-- C1, at a page of 1 by 72 points and 110 by 72 DPI: the width quotient is
the double nearest to `110/72 = 1.52...` and gives 1 pixel, not 2; the height
quotient is exact and gives `floor(72*72/72) = 72` pixels. -/
theorem GetPDFPageSizeInPixels_truncates_witness :
    GetPDFPageSizeInPixels (fun _ => (Double.finite 1, Double.finite 72)) 0
        (Double.finite 110) (Double.finite 72)
      = (⌊(1720124857676231 / 1125899906842624 : ℚ)⌋, ⌊(72 : ℚ)⌋)
    ∧ ⌊(1720124857676231 / 1125899906842624 : ℚ)⌋ = 1
    ∧ |⌊(1720124857676231 / 1125899906842624 : ℚ)⌋ - ⌊(1 : ℚ) * 110 / 72⌋| ≤ 1
    ∧ ⌊(72 : ℚ)⌋ = ⌊(72 : ℚ) * 72 / 72⌋ :=
  have key := GetPDFPageSizeInPixels_truncates (fun _ => (Double.finite 1, Double.finite 72)) 0
    1 72 110 72 (1720124857676231 / 1125899906842624) 72 rfl
    (by norm_num) (by norm_num) (by norm_num) (by norm_num) (by decide!) (by decide!)
    (by norm_num [Int.floor_le_iff, INT_MAX]) (by norm_num [Int.floor_le_iff, INT_MAX])
  ⟨key.1, by norm_num [Int.floor_eq_iff], key.2.1 (by norm_num),
    key.2.2.2.2 (by decide!) (by decide!)⟩

/-- C1 as stated fails: for a page 841.92 points wide (the nearest double,
`0x1.a4f5c28f5c28fp+9`) at 300 DPI, the product rounds up to 252576.0 and the
code gives 3508 pixels, while `floor(w*d/72)` over the exact values is 3507. -/
theorem rounded_product_exceeds_floor :
    round64 a4Width = Double.finite a4Width
    ∧ Double.finite a4Width * Double.finite 300 = Double.finite 252576
    ∧ GetPDFPageSizeInPixels (fun _ => (Double.finite a4Width, Double.finite a4Width)) 0
        (Double.finite 300) (Double.finite 300) = (3508, 3508)
    ∧ ⌊a4Width * 300 / 72⌋ = 3507 :=
  ⟨by decide!, by decide!, by decide!, by norm_num [a4Width, Int.floor_eq_iff]⟩

/-! ## The parser loop -/

/-- One iteration of the parser loop. -/
theorem parse_loop_cons (arg : String) (rest : List String) (g : Globals) :
    parse_loop (arg :: rest) g =
      if arg = "--help" ∨ arg = "/?" then
        parse_loop rest { g with g_usage := true }
      else if arg = "--version" then
        parse_loop rest { g with g_version := true }
      else if arg = "--dpi" then
        match rest with
        | [] => (RET.RET_INVALID_ARGUMENTS, g)
        | value :: rest2 =>
          if (tcstod value.toList).2 ≠ [] then
            (RET.RET_INVALID_ARGUMENTS, { g with g_dpi := (tcstod value.toList).1 })
          else parse_loop rest2 { g with g_dpi := (tcstod value.toList).1 }
      else if arg = "--page" then
        match rest with
        | [] => (RET.RET_INVALID_ARGUMENTS, g)
        | value :: rest2 =>
          if (tcstoul value.toList).2 ≠ [] then
            (RET.RET_INVALID_ARGUMENTS, { g with g_page := storedPageIndex value })
          else parse_loop rest2 { g with g_page := storedPageIndex value }
      else if g.g_in_file = none then
        parse_loop rest { g with g_in_file := some arg }
      else if g.g_out_file = none then
        parse_loop rest { g with g_out_file := some arg }
      else (RET.RET_INVALID_ARGUMENTS, g) := by
  cases rest <;> rfl

/-- The loop invariant principle of the parser for the runs that return
`RET_OK`: a relation between the tokens, the global variables before and
after holds when it is preserved by each kind of step. -/
theorem parse_loop_ok_induction (R : List String → Globals → Globals → Prop)
    (hnil : ∀ g, R [] g g)
    (hhelp : ∀ arg rest g g2, (arg = "--help" ∨ arg = "/?") →
      R rest { g with g_usage := true } g2 → R (arg :: rest) g g2)
    (hversion : ∀ rest g g2,
      R rest { g with g_version := true } g2 → R ("--version" :: rest) g g2)
    (hdpi : ∀ value rest g g2, (tcstod value.toList).2 = [] →
      R rest { g with g_dpi := (tcstod value.toList).1 } g2 → R ("--dpi" :: value :: rest) g g2)
    (hpage : ∀ value rest g g2, (tcstoul value.toList).2 = [] →
      R rest { g with g_page := storedPageIndex value } g2 →
      R ("--page" :: value :: rest) g g2)
    (hin : ∀ arg rest g g2, ¬ isFlag arg → g.g_in_file = none →
      R rest { g with g_in_file := some arg } g2 → R (arg :: rest) g g2)
    (hout : ∀ arg rest g g2, ¬ isFlag arg → g.g_in_file ≠ none → g.g_out_file = none →
      R rest { g with g_out_file := some arg } g2 → R (arg :: rest) g g2) :
    ∀ (args : List String) (g : Globals),
      (parse_loop args g).1 = RET.RET_OK → R args g (parse_loop args g).2 := by
  have key : ∀ (n : Nat) (args : List String), args.length ≤ n → ∀ g : Globals,
      (parse_loop args g).1 = RET.RET_OK → R args g (parse_loop args g).2 := by
    intro n
    induction n with
    | zero =>
      intro args hlen g _
      have : args = [] := List.length_eq_zero.1 (Nat.le_zero.1 hlen)
      subst this
      exact hnil g
    | succ n ih =>
      intro args hlen g hok
      cases args with
      | nil => exact hnil g
      | cons arg rest =>
        have hrest : rest.length ≤ n := by simpa using hlen
        rw [parse_loop_cons] at hok ⊢
        by_cases h1 : arg = "--help" ∨ arg = "/?"
        · rw [if_pos h1] at hok ⊢
          exact hhelp _ _ _ _ h1 (ih rest hrest _ hok)
        rw [if_neg h1] at hok ⊢
        by_cases h2 : arg = "--version"
        · rw [if_pos h2] at hok ⊢
          subst h2
          exact hversion _ _ _ (ih rest hrest _ hok)
        rw [if_neg h2] at hok ⊢
        by_cases h3 : arg = "--dpi"
        · rw [if_pos h3] at hok ⊢
          subst h3
          cases rest with
          | nil => cases hok
          | cons value rest2 =>
            have hrest2 : rest2.length ≤ n := by
              simp only [List.length_cons] at hrest
              omega
            by_cases hv : (tcstod value.toList).2 = []
            · simp only [ne_eq, hv, not_true_eq_false, if_false] at hok ⊢
              exact hdpi _ _ _ _ hv (ih rest2 hrest2 _ hok)
            · simp only [ne_eq, hv, not_false_eq_true, if_true] at hok
              cases hok
        rw [if_neg h3] at hok ⊢
        by_cases h4 : arg = "--page"
        · rw [if_pos h4] at hok ⊢
          subst h4
          cases rest with
          | nil => cases hok
          | cons value rest2 =>
            have hrest2 : rest2.length ≤ n := by
              simp only [List.length_cons] at hrest
              omega
            by_cases hv : (tcstoul value.toList).2 = []
            · simp only [ne_eq, hv, not_true_eq_false, if_false] at hok ⊢
              exact hpage _ _ _ _ hv (ih rest2 hrest2 _ hok)
            · simp only [ne_eq, hv, not_false_eq_true, if_true] at hok
              cases hok
        rw [if_neg h4] at hok ⊢
        have hflag : ¬ isFlag arg := by
          unfold isFlag
          tauto
        by_cases h5 : g.g_in_file = none
        · rw [if_pos h5] at hok ⊢
          exact hin _ _ _ _ hflag h5 (ih rest hrest _ hok)
        rw [if_neg h5] at hok ⊢
        by_cases h6 : g.g_out_file = none
        · rw [if_pos h6] at hok ⊢
          exact hout _ _ _ _ hflag h5 h6 (ih rest hrest _ hok)
        rw [if_neg h6] at hok
        cases hok
  intro args g
  exact key args.length args (le_refl _) g

/-- The function `strtod` converts nothing of a flag token. -/
theorem tcstod_flag (t : String) (h : isFlag t) : (tcstod t.toList).2 ≠ [] := by
  rcases h with h | h | h | h | h <;> subst h <;> decide

/-- The function `strtoul` converts nothing of a flag token. -/
theorem tcstoul_flag (t : String) (h : isFlag t) : (tcstoul t.toList).2 ≠ [] := by
  rcases h with h | h | h | h | h <;> subst h <;> decide

theorem isFlag_of_isHelpToken (t : String) (h : isHelpToken t) : isFlag t := by
  unfold isFlag
  unfold isHelpToken at h
  tauto

/-- When the parser returns `RET_OK` on tokens without `--help`, `/?` and
`--version`, `g_usage` and `g_version` are unchanged. -/
theorem parse_loop_no_help (args : List String) (g : Globals)
    (hok : (parse_loop args g).1 = RET.RET_OK) (hno : ∀ t ∈ args, ¬ isHelpToken t) :
    (parse_loop args g).2.g_usage = g.g_usage
      ∧ (parse_loop args g).2.g_version = g.g_version := by
  refine parse_loop_ok_induction
    (fun args g g2 => (∀ t ∈ args, ¬ isHelpToken t) →
      g2.g_usage = g.g_usage ∧ g2.g_version = g.g_version)
    ?_ ?_ ?_ ?_ ?_ ?_ ?_ args g hok hno
  · intro g _
    exact ⟨rfl, rfl⟩
  · intro arg rest g g2 h _ hno
    exact absurd (show isHelpToken arg by unfold isHelpToken; tauto) (hno arg (by simp))
  · intro rest g g2 _ hno
    exact absurd (show isHelpToken "--version" by unfold isHelpToken; tauto)
      (hno "--version" (by simp))
  · intro value rest g g2 _ ih hno
    exact ih (fun t ht => hno t (by simp [ht]))
  · intro value rest g g2 _ ih hno
    exact ih (fun t ht => hno t (by simp [ht]))
  · intro arg rest g g2 _ _ ih hno
    exact ih (fun t ht => hno t (by simp [ht]))
  · intro arg rest g g2 _ _ _ ih hno
    exact ih (fun t ht => hno t (by simp [ht]))

/-- When the parser returns `RET_OK` on tokens with a `--help`, `/?` or
`--version` among them, `g_usage` or `g_version` is set. -/
theorem parse_loop_help (args : List String) (g : Globals)
    (hok : (parse_loop args g).1 = RET.RET_OK)
    (hhelp : g.g_usage = true ∨ g.g_version = true ∨ ∃ t ∈ args, isHelpToken t) :
    (parse_loop args g).2.g_usage = true ∨ (parse_loop args g).2.g_version = true := by
  refine parse_loop_ok_induction
    (fun args g g2 => (g.g_usage = true ∨ g.g_version = true ∨ ∃ t ∈ args, isHelpToken t) →
      (g2.g_usage = true ∨ g2.g_version = true))
    ?_ ?_ ?_ ?_ ?_ ?_ ?_ args g hok hhelp
  · intro g h
    rcases h with h | h | ⟨t, ht, _⟩
    · exact Or.inl h
    · exact Or.inr h
    · simp at ht
  · intro arg rest g g2 _ ih _
    exact ih (Or.inl rfl)
  · intro rest g g2 ih _
    exact ih (Or.inr (Or.inl rfl))
  · intro value rest g g2 hv ih h
    apply ih
    rcases h with h | h | ⟨t, ht, hh⟩
    · exact Or.inl h
    · exact Or.inr (Or.inl h)
    · simp only [List.mem_cons] at ht
      rcases ht with ht | ht | ht
      · subst ht
        exact absurd hh (by decide)
      · subst ht
        exact absurd hv (tcstod_flag _ (isFlag_of_isHelpToken _ hh))
      · exact Or.inr (Or.inr ⟨t, ht, hh⟩)
  · intro value rest g g2 hv ih h
    apply ih
    rcases h with h | h | ⟨t, ht, hh⟩
    · exact Or.inl h
    · exact Or.inr (Or.inl h)
    · simp only [List.mem_cons] at ht
      rcases ht with ht | ht | ht
      · subst ht
        exact absurd hh (by decide)
      · subst ht
        exact absurd hv (tcstoul_flag _ (isFlag_of_isHelpToken _ hh))
      · exact Or.inr (Or.inr ⟨t, ht, hh⟩)
  · intro arg rest g g2 hflag _ ih h
    apply ih
    rcases h with h | h | ⟨t, ht, hh⟩
    · exact Or.inl h
    · exact Or.inr (Or.inl h)
    · simp only [List.mem_cons] at ht
      rcases ht with ht | ht
      · subst ht
        exact absurd (isFlag_of_isHelpToken _ hh) hflag
      · exact Or.inr (Or.inr ⟨t, ht, hh⟩)
  · intro arg rest g g2 hflag _ _ ih h
    apply ih
    rcases h with h | h | ⟨t, ht, hh⟩
    · exact Or.inl h
    · exact Or.inr (Or.inl h)
    · simp only [List.mem_cons] at ht
      rcases ht with ht | ht
      · subst ht
        exact absurd (isFlag_of_isHelpToken _ hh) hflag
      · exact Or.inr (Or.inr ⟨t, ht, hh⟩)

/-- One step of `positionals`. -/
theorem positionals_cons (arg : String) (rest : List String) :
    positionals (arg :: rest) =
      if arg = "--help" ∨ arg = "/?" ∨ arg = "--version" then positionals rest
      else if arg = "--dpi" ∨ arg = "--page" then
        match rest with
        | [] => []
        | _ :: rest2 => positionals rest2
      else arg :: positionals rest := by
  cases rest <;> rfl

theorem positionals_dpi (value : String) (rest : List String) :
    positionals ("--dpi" :: value :: rest) = positionals rest := by
  rw [positionals_cons, if_neg (by decide), if_pos (Or.inl rfl)]

theorem positionals_page (value : String) (rest : List String) :
    positionals ("--page" :: value :: rest) = positionals rest := by
  rw [positionals_cons, if_neg (by decide), if_pos (Or.inr rfl)]

theorem positionals_not_flag (arg : String) (rest : List String) (h : ¬ isFlag arg) :
    positionals (arg :: rest) = arg :: positionals rest := by
  unfold isFlag at h
  rw [positionals_cons, if_neg (by tauto), if_neg (by tauto)]

/-- When the parser returns `RET_OK`, each positional token has set one path. -/
theorem parse_loop_filled (args : List String) (g : Globals)
    (hok : (parse_loop args g).1 = RET.RET_OK) :
    filled (parse_loop args g).2 = filled g + (positionals args).length := by
  refine parse_loop_ok_induction
    (fun args g g2 => filled g2 = filled g + (positionals args).length)
    ?_ ?_ ?_ ?_ ?_ ?_ ?_ args g hok
  · intro g
    simp [positionals]
  · intro arg rest g g2 h ih
    have : positionals (arg :: rest) = positionals rest := by
      rw [positionals_cons, if_pos (by tauto)]
    rw [this, ih]
    rfl
  · intro rest g g2 ih
    have : positionals ("--version" :: rest) = positionals rest := by
      rw [positionals_cons, if_pos (by tauto)]
    rw [this, ih]
    rfl
  · intro value rest g g2 _ ih
    rw [positionals_dpi, ih]
    simp only [filled]
  · intro value rest g g2 _ ih
    rw [positionals_page, ih]
    simp only [filled]
  · intro arg rest g g2 hflag hnone ih
    rw [positionals_not_flag _ _ hflag, ih]
    simp only [filled, hnone, List.length_cons]
    simp
    omega
  · intro arg rest g g2 hflag hsome hnone ih
    rw [positionals_not_flag _ _ hflag, ih]
    simp only [filled, hnone, List.length_cons]
    simp
    omega

/-- One step of `pageValues`. -/
theorem pageValues_cons (arg : String) (rest : List String) :
    pageValues (arg :: rest) =
      if arg = "--page" then
        match rest with
        | [] => []
        | value :: rest2 => value :: pageValues rest2
      else if arg = "--dpi" then
        match rest with
        | [] => []
        | _ :: rest2 => pageValues rest2
      else pageValues rest := by
  cases rest <;> rfl

theorem pageValues_not_value_flag (arg : String) (rest : List String)
    (h1 : arg ≠ "--page") (h2 : arg ≠ "--dpi") :
    pageValues (arg :: rest) = pageValues rest := by
  rw [pageValues_cons, if_neg h1, if_neg h2]

theorem pageValues_dpi (value : String) (rest : List String) :
    pageValues ("--dpi" :: value :: rest) = pageValues rest := by
  rw [pageValues_cons, if_neg (by decide), if_pos rfl]

theorem pageValues_page (value : String) (rest : List String) :
    pageValues ("--page" :: value :: rest) = value :: pageValues rest := by
  rw [pageValues_cons, if_pos rfl]

theorem getLast_map_getD {α β : Type} (f : α → β) (v : α) (l : List α) (d : β) :
    ((l.getLast?).map f).getD (f v) = (((v :: l).getLast?).map f).getD d := by
  cases l with
  | nil => simp
  | cons a l =>
    have hx : ∃ x, (a :: l).getLast? = some x :=
      ⟨(a :: l).getLast (by simp), List.getLast?_eq_getLast _ (by simp)⟩
    obtain ⟨x, hx⟩ := hx
    rw [List.getLast?_cons_cons, hx]
    rfl

/-- When the parser returns `RET_OK`, `g_page` is the index stored for the
last `--page` value, or is unchanged when there is no `--page` value. -/
theorem parse_loop_page (args : List String) (g : Globals)
    (hok : (parse_loop args g).1 = RET.RET_OK) :
    (parse_loop args g).2.g_page =
      (((pageValues args).getLast?).map storedPageIndex).getD g.g_page := by
  refine parse_loop_ok_induction
    (fun args g g2 => g2.g_page = (((pageValues args).getLast?).map storedPageIndex).getD g.g_page)
    ?_ ?_ ?_ ?_ ?_ ?_ ?_ args g hok
  · intro g
    simp [pageValues]
  · intro arg rest g g2 h ih
    have h1 : arg ≠ "--page" := by
      rcases h with h | h <;> subst h <;> decide
    have h2 : arg ≠ "--dpi" := by
      rcases h with h | h <;> subst h <;> decide
    rw [pageValues_not_value_flag _ _ h1 h2, ih]
  · intro rest g g2 ih
    rw [pageValues_not_value_flag _ _ (by decide) (by decide), ih]
  · intro value rest g g2 _ ih
    rw [pageValues_dpi, ih]
  · intro value rest g g2 _ ih
    rw [pageValues_page, ← getLast_map_getD storedPageIndex value (pageValues rest) g.g_page]
    dsimp only at ih
    exact ih
  · intro arg rest g g2 hflag _ ih
    unfold isFlag at hflag
    rw [pageValues_not_value_flag _ _ (by tauto) (by tauto), ih]
  · intro arg rest g g2 hflag _ _ ih
    unfold isFlag at hflag
    rw [pageValues_not_value_flag _ _ (by tauto) (by tauto), ih]

/-- Without a `--page` token the parser leaves `g_page` as it is, whatever it returns. -/
theorem parse_loop_page_unchanged (args : List String) (g : Globals)
    (hno : "--page" ∉ args) : (parse_loop args g).2.g_page = g.g_page := by
  have key : ∀ (n : Nat) (args : List String), args.length ≤ n → ∀ g : Globals,
      "--page" ∉ args → (parse_loop args g).2.g_page = g.g_page := by
    intro n
    induction n with
    | zero =>
      intro args hlen g _
      have : args = [] := List.length_eq_zero.1 (Nat.le_zero.1 hlen)
      subst this
      rfl
    | succ n ih =>
      intro args hlen g hno
      cases args with
      | nil => rfl
      | cons arg rest =>
        have hrest : rest.length ≤ n := by simpa using hlen
        have harg : arg ≠ "--page" := fun h => hno (by simp [h])
        have hno1 : "--page" ∉ rest := fun h => hno (by simp [h])
        rw [parse_loop_cons]
        split_ifs with h1 h2 h3 h5 h6
        · exact ih rest hrest _ hno1
        · exact ih rest hrest _ hno1
        · cases rest with
          | nil => rfl
          | cons value rest2 =>
            have hrest2 : rest2.length ≤ n := by
              simp only [List.length_cons] at hrest
              omega
            have hno2 : "--page" ∉ rest2 := fun h => hno1 (by simp [h])
            show (if (tcstod value.toList).2 ≠ [] then _ else _ : RET × Globals).2.g_page = _
            split_ifs
            · rfl
            · exact ih rest2 hrest2 _ hno2
        · exact ih rest hrest _ hno1
        · exact ih rest hrest _ hno1
        · rfl
  exact key args.length args (le_refl _) g hno

theorem lacksValue_succ (arg : String) (rest : List String) (i : Nat) :
    lacksValue (arg :: rest) (i + 1) ↔ lacksValue rest i := by
  simp [lacksValue]

/-- The parser returns `RET_INVALID_ARGUMENTS` when some `--dpi` or `--page`
flag is the last token or is followed by a token that is not converted up to
its end. -/
theorem parse_loop_lacksValue (args : List String) (g : Globals) (i : Nat)
    (h : lacksValue args i) : (parse_loop args g).1 = RET.RET_INVALID_ARGUMENTS := by
  have key : ∀ (n : Nat) (args : List String), args.length ≤ n → ∀ (g : Globals) (i : Nat),
      lacksValue args i → (parse_loop args g).1 = RET.RET_INVALID_ARGUMENTS := by
    intro n
    induction n with
    | zero =>
      intro args hlen g i h
      have : args = [] := List.length_eq_zero.1 (Nat.le_zero.1 hlen)
      subst this
      simp [lacksValue] at h
    | succ n ih =>
      intro args hlen g i h
      cases args with
      | nil => simp [lacksValue] at h
      | cons arg rest =>
        have hrest : rest.length ≤ n := by simpa using hlen
        rw [parse_loop_cons]
        cases i with
        | zero =>
          rcases h with ⟨h0, h1⟩ | ⟨h0, h1⟩
          · simp only [List.getElem?_cons_zero, Option.some.injEq] at h0
            subst h0
            rw [if_neg (by decide), if_neg (by decide), if_pos rfl]
            cases rest with
            | nil => rfl
            | cons value rest2 =>
              simp only [zero_add, List.getElem?_cons_succ, List.getElem?_cons_zero,
                Option.some.injEq, exists_eq_left', reduceCtorEq, false_or] at h1
              show (if (tcstod value.toList).2 ≠ [] then _ else _ : RET × Globals).1 = _
              rw [if_pos h1]
          · simp only [List.getElem?_cons_zero, Option.some.injEq] at h0
            subst h0
            rw [if_neg (by decide), if_neg (by decide), if_neg (by decide), if_pos rfl]
            cases rest with
            | nil => rfl
            | cons value rest2 =>
              simp only [zero_add, List.getElem?_cons_succ, List.getElem?_cons_zero,
                Option.some.injEq, exists_eq_left', reduceCtorEq, false_or] at h1
              show (if (tcstoul value.toList).2 ≠ [] then _ else _ : RET × Globals).1 = _
              rw [if_pos h1]
        | succ j =>
          have hj : lacksValue rest j := (lacksValue_succ arg rest j).1 h
          have hvalue : ∀ (value : String) (rest2 : List String), rest = value :: rest2 →
              j = 0 → isFlag value := by
            intro value rest2 hr hj0
            subst hr hj0
            unfold isFlag
            rcases hj with ⟨h0, _⟩ | ⟨h0, _⟩ <;>
              simp only [List.getElem?_cons_zero, Option.some.injEq] at h0 <;> simp [h0]
          split_ifs with h1 h2 h3 h4 h5 h6
          · exact ih rest hrest _ j hj
          · exact ih rest hrest _ j hj
          · cases rest with
            | nil => rfl
            | cons value rest2 =>
              have hrest2 : rest2.length ≤ n := by
                simp only [List.length_cons] at hrest
                omega
              show (if (tcstod value.toList).2 ≠ [] then _ else _ : RET × Globals).1 = _
              split_ifs with hv
              · rfl
              · cases j with
                | zero => exact absurd (tcstod_flag _ (hvalue value rest2 rfl rfl)) hv
                | succ k => exact ih rest2 hrest2 _ k ((lacksValue_succ value rest2 k).1 hj)
          · cases rest with
            | nil => rfl
            | cons value rest2 =>
              have hrest2 : rest2.length ≤ n := by
                simp only [List.length_cons] at hrest
                omega
              show (if (tcstoul value.toList).2 ≠ [] then _ else _ : RET × Globals).1 = _
              split_ifs with hv
              · rfl
              · cases j with
                | zero => exact absurd (tcstoul_flag _ (hvalue value rest2 rfl rfl)) hv
                | succ k => exact ih rest2 hrest2 _ k ((lacksValue_succ value rest2 k).1 hj)
          · exact ih rest hrest _ j hj
          · exact ih rest hrest _ j hj
          · rfl
  exact key args.length args (le_refl _) g i h

/-! ## The driver -/

/-- The run when the parser rejects the argument list. -/
theorem pdf2bmp_main_of_invalid (env : Env) (argv : List String)
    (h : (pdf2bmp_parse_cmdline argv).1 ≠ RET.RET_OK) :
    pdf2bmp_main env argv = (1, [Event.stderr "ERROR: No arguments\n", Event.pdf2bmp_usage])
    ∨ pdf2bmp_main env argv
      = (1, [Event.stderr "ERROR: Invalid arguments\n", Event.pdf2bmp_usage]) := by
  unfold pdf2bmp_main
  by_cases hlen : argv.length ≤ 1
  · left
    rw [if_pos hlen]
  · right
    rw [if_neg hlen]
    rw [if_pos h]

/-- The run when the parser accepts the argument list and the usage or the
version is asked for. -/
theorem pdf2bmp_main_of_help (env : Env) (argv : List String) (hlen : 2 ≤ argv.length)
    (hok : (pdf2bmp_parse_cmdline argv).1 = RET.RET_OK)
    (h : (pdf2bmp_parse_cmdline argv).2.g_usage = true
      ∨ (pdf2bmp_parse_cmdline argv).2.g_version = true) :
    pdf2bmp_main env argv = (0, [Event.pdf2bmp_usage])
    ∨ pdf2bmp_main env argv = (0, [Event.pdf2bmp_version]) := by
  unfold pdf2bmp_main
  rw [if_neg (by omega), if_neg (fun hne => hne hok)]
  by_cases hu : (pdf2bmp_parse_cmdline argv).2.g_usage = true
  · left
    rw [if_pos hu]
  · right
    rw [if_neg hu]
    rcases h with h | h
    · exact absurd h hu
    · rw [if_pos h]

/-- The run when neither the usage nor the version is asked for and a path
is missing or the page index is negative. -/
theorem pdf2bmp_main_of_unusable (env : Env) (argv : List String)
    (hu : (pdf2bmp_parse_cmdline argv).2.g_usage = false)
    (hv : (pdf2bmp_parse_cmdline argv).2.g_version = false)
    (h : (pdf2bmp_parse_cmdline argv).2.g_in_file = none
      ∨ (pdf2bmp_parse_cmdline argv).2.g_out_file = none
      ∨ (pdf2bmp_parse_cmdline argv).2.g_page < 0) :
    ∃ tr, pdf2bmp_main env argv = (1, tr) ∧ consoleOnly tr := by
  unfold pdf2bmp_main
  by_cases hlen : argv.length ≤ 1
  · rw [if_pos hlen]
    exact ⟨_, rfl, by unfold consoleOnly; decide⟩
  rw [if_neg hlen]
  by_cases hok : (pdf2bmp_parse_cmdline argv).1 = RET.RET_OK
  · rw [if_neg (fun hne => hne hok), if_neg (by simp [hu]), if_neg (by simp [hv])]
    cases hin : (pdf2bmp_parse_cmdline argv).2.g_in_file with
    | none => exact ⟨_, rfl, by unfold consoleOnly; decide⟩
    | some in_file =>
      cases hout : (pdf2bmp_parse_cmdline argv).2.g_out_file with
      | none => exact ⟨_, rfl, by unfold consoleOnly; decide⟩
      | some out_file =>
        have hp : (pdf2bmp_parse_cmdline argv).2.g_page < 0 := by
          rcases h with h | h | h
          · rw [hin] at h
            cases h
          · rw [hout] at h
            cases h
          · exact h
        dsimp only
        rw [if_pos hp]
        exact ⟨_, rfl, by unfold consoleOnly; decide⟩
  · rw [if_pos hok]
    exact ⟨_, rfl, by unfold consoleOnly; decide⟩

/-! ## Usage and version requests -/

/-- C3, as amended: for every argument list with a `--help`, `/?` or
`--version` token, if the parser accepts the list then `pdf2bmp_main` returns 0
after printing the usage or the version, and if the parser rejects the list
then `pdf2bmp_main` returns 1 after printing an error and the usage; in both
cases no PDF library call and no file write is made. -/
theorem help_short_circuit (env : Env) (argv : List String)
    (hhelp : ∃ t ∈ argv.drop 1, isHelpToken t) :
    ((pdf2bmp_parse_cmdline argv).1 = RET.RET_OK →
      pdf2bmp_main env argv = (0, [Event.pdf2bmp_usage])
      ∨ pdf2bmp_main env argv = (0, [Event.pdf2bmp_version]))
    ∧ ((pdf2bmp_parse_cmdline argv).1 = RET.RET_INVALID_ARGUMENTS →
      pdf2bmp_main env argv
        = (1, [Event.stderr "ERROR: Invalid arguments\n", Event.pdf2bmp_usage])) := by
  have hlen : 2 ≤ argv.length := by
    obtain ⟨t, ht, _⟩ := hhelp
    have := List.length_pos_of_mem ht
    simp only [List.length_drop] at this
    omega
  constructor
  · intro hok
    exact pdf2bmp_main_of_help env argv hlen hok
      (parse_loop_help _ _ hok (Or.inr (Or.inr hhelp)))
  · intro hbad
    unfold pdf2bmp_main
    rw [if_neg (by omega), if_pos (by rw [hbad]; decide)]

/-- C3, at `pdf2bmp --help`: the usage is printed and 0 returned. -/
theorem help_short_circuit_witness :
    (∃ t ∈ ["pdf2bmp", "--help"].drop 1, isHelpToken t)
    ∧ (pdf2bmp_parse_cmdline ["pdf2bmp", "--help"]).1 = RET.RET_OK
    ∧ pdf2bmp_main Env.twoPages ["pdf2bmp", "--help"] = (0, [Event.pdf2bmp_usage]) :=
  ⟨⟨"--help", by decide, by decide⟩, by decide,
    ((help_short_circuit Env.twoPages ["pdf2bmp", "--help"]
      ⟨"--help", by decide, by decide⟩).1 (by decide)).resolve_right (by decide)⟩

/-- C3 as stated fails: `pdf2bmp --help --dpi` (a flag without its value) and
`pdf2bmp --version a b c` (three positional tokens) return 1, not 0. -/
theorem help_with_invalid_arguments_returns_1 :
    pdf2bmp_main Env.twoPages ["pdf2bmp", "--help", "--dpi"]
      = (1, [Event.stderr "ERROR: Invalid arguments\n", Event.pdf2bmp_usage])
    ∧ pdf2bmp_main Env.twoPages ["pdf2bmp", "--version", "a", "b", "c"]
      = (1, [Event.stderr "ERROR: Invalid arguments\n", Event.pdf2bmp_usage]) := by
  constructor <;> decide

/-! ## Rejected argument lists -/

/-- C4: for every argument list without `--help`, `/?` and `--version` whose
last `--page` value stores a negative zero-based index (such as `--page 0`),
`pdf2bmp_main` returns 1 and makes no call of the PDF library: the trace is
console output only. This holds whatever the number of positional tokens. -/
theorem negative_page_rejected (env : Env) (argv : List String)
    (hno : ∀ t ∈ argv.drop 1, ¬ isHelpToken t) (value : String)
    (hlast : (pageValues (argv.drop 1)).getLast? = some value)
    (hneg : storedPageIndex value < 0) :
    ∃ tr, pdf2bmp_main env argv = (1, tr) ∧ consoleOnly tr := by
  by_cases hok : (pdf2bmp_parse_cmdline argv).1 = RET.RET_OK
  · have hflags := parse_loop_no_help _ _ hok hno
    have hpage : (pdf2bmp_parse_cmdline argv).2.g_page
        = (((pageValues (argv.drop 1)).getLast?).map storedPageIndex).getD
            Globals.initial.g_page :=
      parse_loop_page _ _ hok
    rw [hlast, Option.map_some', Option.getD_some] at hpage
    apply pdf2bmp_main_of_unusable env argv hflags.1 hflags.2
    right
    right
    rw [hpage]
    exact hneg
  · rcases pdf2bmp_main_of_invalid env argv hok with h | h
    · exact ⟨_, h, by unfold consoleOnly; decide⟩
    · exact ⟨_, h, by unfold consoleOnly; decide⟩

/-- C4, at `pdf2bmp --page 0 in.pdf out.bmp`. -/
theorem negative_page_rejected_witness :
    (∀ t ∈ ["pdf2bmp", "--page", "0", "in.pdf", "out.bmp"].drop 1, ¬ isHelpToken t)
    ∧ (positionals (["pdf2bmp", "--page", "0", "in.pdf", "out.bmp"].drop 1)).length = 2
    ∧ (pageValues (["pdf2bmp", "--page", "0", "in.pdf", "out.bmp"].drop 1)).getLast? = some "0"
    ∧ storedPageIndex "0" = -1
    ∧ ∃ tr,
        pdf2bmp_main Env.twoPages ["pdf2bmp", "--page", "0", "in.pdf", "out.bmp"] = (1, tr)
        ∧ consoleOnly tr :=
  ⟨by decide, by decide, by decide, by decide,
    negative_page_rejected Env.twoPages ["pdf2bmp", "--page", "0", "in.pdf", "out.bmp"]
      (by decide) "0" (by decide) (by decide)⟩

/-- C7: for every argument list without `--help`, `/?` and `--version` whose
number of positional tokens is not two, `pdf2bmp_main` returns 1 (a non-zero
status) and makes no call of the PDF library or of the bitmap writer; with
three or more positional tokens the parser itself returns
`RET_INVALID_ARGUMENTS`. -/
theorem wrong_positional_count (env : Env) (argv : List String)
    (hno : ∀ t ∈ argv.drop 1, ¬ isHelpToken t)
    (hcount : (positionals (argv.drop 1)).length ≠ 2) :
    (∃ tr, pdf2bmp_main env argv = (1, tr) ∧ consoleOnly tr)
    ∧ (3 ≤ (positionals (argv.drop 1)).length →
      (pdf2bmp_parse_cmdline argv).1 = RET.RET_INVALID_ARGUMENTS) := by
  have hfill : (pdf2bmp_parse_cmdline argv).1 = RET.RET_OK →
      filled (pdf2bmp_parse_cmdline argv).2 = (positionals (argv.drop 1)).length := by
    intro hok
    have h := parse_loop_filled (argv.drop 1) Globals.initial hok
    rw [show filled Globals.initial = 0 from rfl, zero_add] at h
    exact h
  have hle : ∀ g : Globals, filled g ≤ 2 := by
    intro g
    unfold filled
    split_ifs <;> omega
  constructor
  · by_cases hok : (pdf2bmp_parse_cmdline argv).1 = RET.RET_OK
    · have hflags := parse_loop_no_help _ _ hok hno
      apply pdf2bmp_main_of_unusable env argv hflags.1 hflags.2
      have h2 : filled (pdf2bmp_parse_cmdline argv).2 ≠ 2 := by
        rw [hfill hok]
        exact hcount
      by_contra hcon
      simp only [not_or] at hcon
      apply h2
      unfold filled
      rw [if_neg hcon.1, if_neg hcon.2.1]
    · rcases pdf2bmp_main_of_invalid env argv hok with h | h
      · exact ⟨_, h, by unfold consoleOnly; decide⟩
      · exact ⟨_, h, by unfold consoleOnly; decide⟩
  · intro h3
    cases hret : (pdf2bmp_parse_cmdline argv).1 with
    | RET_INVALID_ARGUMENTS => rfl
    | RET_OK =>
      have := hfill hret
      have := hle (pdf2bmp_parse_cmdline argv).2
      omega

/-- C7, at `pdf2bmp in.pdf` (one positional token). -/
theorem wrong_positional_count_witness :
    (∀ t ∈ ["pdf2bmp", "in.pdf"].drop 1, ¬ isHelpToken t)
    ∧ (positionals (["pdf2bmp", "in.pdf"].drop 1)).length = 1
    ∧ ∃ tr, pdf2bmp_main Env.twoPages ["pdf2bmp", "in.pdf"] = (1, tr) ∧ consoleOnly tr :=
  ⟨by decide, by decide,
    (wrong_positional_count Env.twoPages ["pdf2bmp", "in.pdf"] (by decide) (by decide)).1⟩

/-! ## The page number -/

theorem digitChar_spec (k : Nat) (h : k < 10) :
    (Nat.digitChar k).isDigit = true ∧ digitValue (Nat.digitChar k) = k := by
  interval_cases k <;> decide

theorem digitsValue_append_singleton (base : Nat) (ds : List Char) (d : Char) :
    digitsValue base (ds ++ [d]) = base * digitsValue base ds + digitValue d := by
  simp [digitsValue, List.foldl_append]

/-- The decimal numeral of `n` is a non-empty run of decimal digits of value `n`. -/
theorem toDigitsCore_spec (fuel : Nat) : ∀ (n : Nat) (ds : List Char), n < fuel →
    ∃ pre, Nat.toDigitsCore 10 fuel n ds = pre ++ ds ∧ pre ≠ [] ∧
      (∀ c ∈ pre, c.isDigit = true) ∧ digitsValue 10 pre = n := by
  induction fuel with
  | zero => intro n ds h; omega
  | succ fuel ih =>
    intro n ds hn
    have hd := digitChar_spec (n % 10) (Nat.mod_lt _ (by decide))
    unfold Nat.toDigitsCore
    by_cases h0 : n / 10 = 0
    · simp only [h0, if_true]
      refine ⟨[Nat.digitChar (n % 10)], rfl, by simp, ?_, ?_⟩
      · intro c hc
        simp only [List.mem_singleton] at hc
        rw [hc]
        exact hd.1
      · have : digitsValue 10 [Nat.digitChar (n % 10)]
            = 10 * 0 + digitValue (Nat.digitChar (n % 10)) := rfl
        rw [this, hd.2]
        omega
    · simp only [h0, if_false]
      obtain ⟨pre, hpre, _, hall, hval⟩ := ih (n / 10) (Nat.digitChar (n % 10) :: ds) (by omega)
      refine ⟨pre ++ [Nat.digitChar (n % 10)], ?_, by simp, ?_, ?_⟩
      · rw [hpre]
        simp
      · intro c hc
        simp only [List.mem_append, List.mem_singleton] at hc
        rcases hc with hc | hc
        · exact hall c hc
        · rw [hc]
          exact hd.1
      · rw [digitsValue_append_singleton, hval, hd.2]
        omega

theorem toString_spec (n : Nat) :
    (toString n).toList ≠ [] ∧ (∀ c ∈ (toString n).toList, c.isDigit = true) ∧
      digitsValue 10 (toString n).toList = n := by
  obtain ⟨pre, hpre, hne, hall, hval⟩ := toDigitsCore_spec (n + 1) n [] (by omega)
  have h : (toString n).toList = pre := by
    show Nat.toDigits 10 n = pre
    unfold Nat.toDigits
    rw [hpre]
    simp
  rw [h]
  exact ⟨hne, hall, hval⟩

theorem isDigit_not_space (c : Char) (h : c.isDigit = true) :
    isspace c = false ∧ c ≠ '-' ∧ c ≠ '+' := by
  have h48 : 48 ≤ c.toNat := by
    simp only [Char.isDigit, Bool.and_eq_true, decide_eq_true_eq] at h
    exact h.1
  refine ⟨?_, ?_, ?_⟩
  · simp only [isspace, Bool.or_eq_false_iff, beq_eq_false_iff_ne, ne_eq, Bool.and_eq_false_imp,
      decide_eq_true_eq, decide_eq_false_iff_not]
    omega
  · intro hc
    subst hc
    revert h48
    decide
  · intro hc
    subst hc
    revert h48
    decide

/-- The function `strtoul` on a non-empty run of decimal digits converts all of it. -/
theorem tcstoul_digits (ds : List Char) (hne : ds ≠ []) (hall : ∀ c ∈ ds, c.isDigit = true) :
    tcstoul ds = (if digitsValue 10 ds > ULONG_MAX then ULONG_MAX else digitsValue 10 ds, []) := by
  cases ds with
  | nil => exact absurd rfl hne
  | cons c t =>
    have hc := isDigit_not_space c (hall c (by simp))
    have h1 : (c :: t).dropWhile isspace = c :: t := by
      rw [List.dropWhile_cons, if_neg (by simp [hc.1])]
    have h2 : hasSign (c :: t) = false := by
      simp [hasSign, hc.2.1, hc.2.2]
    have h3 : (c :: t).takeWhile Char.isDigit = c :: t :=
      List.takeWhile_eq_self_iff.2 hall
    have h4 : (c :: t).dropWhile Char.isDigit = [] :=
      List.dropWhile_eq_nil_iff.2 hall
    have h5 : ((c :: t).head? == some '-') = false := by
      simp [hc.2.1]
    simp only [tcstoul, h1, h2, h3, h4, h5, Bool.false_eq_true, if_false, reduceCtorEq]

/-- The index stored for the decimal numeral of `n`. -/
theorem storedPageIndex_toString (n : Nat) :
    (tcstoul (toString n).toList).2 = [] ∧
    (1 ≤ n ∧ n ≤ 2147483648 → storedPageIndex (toString n) = (n : Int) - 1) ∧
    (¬ (1 ≤ n ∧ n ≤ 2147483648) → storedPageIndex (toString n) < 0) := by
  obtain ⟨hne, hall, hval⟩ := toString_spec n
  have ht := tcstoul_digits _ hne hall
  rw [hval] at ht
  refine ⟨by rw [ht], ?_, ?_⟩
  · rintro ⟨h1, h2⟩
    simp only [storedPageIndex, ht, ulong_to_int, ulong_sub, ULONG_MAX]
    split_ifs <;> omega
  · intro h
    simp only [storedPageIndex, ht, ulong_to_int, ulong_sub, ULONG_MAX]
    split_ifs <;> omega

/-- C5: for every page number `n` written in decimal as the value of `--page`,
the parser goes on with `g_page = n - 1` when `1 <= n <= 2^31` and with a
negative `g_page` for every other `n`, from any state and before any further
tokens, and so does `pdf2bmp_parse_cmdline` on `pdf2bmp --page n`; without a
`--page` token `g_page` stays 0. Hence a non-negative stored index is always
`n - 1`. -/
theorem page_number_stored :
    (∀ (n : Nat) (g : Globals) (rest : List String), ∃ p : Int,
      parse_loop ("--page" :: toString n :: rest) g = parse_loop rest { g with g_page := p } ∧
      (1 ≤ n ∧ n ≤ 2147483648 → p = (n : Int) - 1) ∧
      (¬ (1 ≤ n ∧ n ≤ 2147483648) → p < 0))
    ∧ (∀ n : Nat, ∃ p : Int,
      pdf2bmp_parse_cmdline ["pdf2bmp", "--page", toString n]
        = (RET.RET_OK, { Globals.initial with g_page := p }) ∧
      (1 ≤ n ∧ n ≤ 2147483648 → p = (n : Int) - 1) ∧
      (¬ (1 ≤ n ∧ n ≤ 2147483648) → p < 0))
    ∧ (∀ argv : List String, "--page" ∉ argv.drop 1 →
      (pdf2bmp_parse_cmdline argv).2.g_page = 0) := by
  have step : ∀ (n : Nat) (g : Globals) (rest : List String),
      parse_loop ("--page" :: toString n :: rest) g
        = parse_loop rest { g with g_page := storedPageIndex (toString n) } := by
    intro n g rest
    rw [parse_loop_cons, if_neg (by decide), if_neg (by decide), if_neg (by decide), if_pos rfl]
    show (if (tcstoul (toString n).toList).2 ≠ [] then _ else _) = _
    rw [if_neg (fun h => h (storedPageIndex_toString n).1)]
  refine ⟨?_, ?_, ?_⟩
  · intro n g rest
    exact ⟨storedPageIndex (toString n), step n g rest, (storedPageIndex_toString n).2.1,
      (storedPageIndex_toString n).2.2⟩
  · intro n
    refine ⟨storedPageIndex (toString n), ?_, (storedPageIndex_toString n).2.1,
      (storedPageIndex_toString n).2.2⟩
    show parse_loop ("--page" :: toString n :: []) Globals.initial = _
    rw [step]
    rfl
  · intro argv hno
    exact parse_loop_page_unchanged _ _ hno

/-- C5, at `--page 1` and `--page 0`: the stored indices are 0 and -1. -/
theorem page_number_stored_witness :
    pdf2bmp_parse_cmdline ["pdf2bmp", "--page", "1"]
      = (RET.RET_OK, { Globals.initial with g_page := 0 })
    ∧ (pdf2bmp_parse_cmdline ["pdf2bmp", "--page", "0"]).2.g_page < 0
    ∧ (pdf2bmp_parse_cmdline ["pdf2bmp", "in.pdf", "out.bmp"]).2.g_page = 0 := by
  refine ⟨?_, ?_, page_number_stored.2.2 _ (by decide)⟩
  · obtain ⟨p, hp, h1, _⟩ := page_number_stored.2.1 1
    have hp0 : p = 0 := by
      have := h1 (by omega)
      simpa using this
    rw [hp0] at hp
    exact hp
  · obtain ⟨p, hp, _, h2⟩ := page_number_stored.2.1 0
    have hneg := h2 (by omega)
    have hp2 : (pdf2bmp_parse_cmdline ["pdf2bmp", "--page", "0"]).2.g_page = p := by
      have : pdf2bmp_parse_cmdline ["pdf2bmp", "--page", "0"]
          = (RET.RET_OK, { Globals.initial with g_page := p }) := hp
      rw [this]
    rw [hp2]
    exact hneg

/-! ## Flag values -/

/-- C6, as amended: for every argument list in which a `--dpi` or `--page`
flag is the last token, or is followed by a token that `_tcstod` (for `--dpi`)
or `_tcstoul` in base 10 (for `--page`) does not convert up to its end,
`pdf2bmp_parse_cmdline` returns `RET_INVALID_ARGUMENTS`. -/
theorem flag_value_rejected (argv : List String) (i : Nat)
    (h : lacksValue (argv.drop 1) i) :
    (pdf2bmp_parse_cmdline argv).1 = RET.RET_INVALID_ARGUMENTS :=
  parse_loop_lacksValue _ _ i h

/-- C6, at `pdf2bmp in.pdf --dpi 72dpi out.bmp` and `pdf2bmp in.pdf --page`. -/
theorem flag_value_rejected_witness :
    lacksValue (["pdf2bmp", "in.pdf", "--dpi", "72dpi", "out.bmp"].drop 1) 1
    ∧ (pdf2bmp_parse_cmdline ["pdf2bmp", "in.pdf", "--dpi", "72dpi", "out.bmp"]).1
      = RET.RET_INVALID_ARGUMENTS
    ∧ (pdf2bmp_parse_cmdline ["pdf2bmp", "in.pdf", "--page"]).1 = RET.RET_INVALID_ARGUMENTS :=
  ⟨Or.inl ⟨by decide, Or.inr ⟨"72dpi", by decide, by decide⟩⟩,
    flag_value_rejected ["pdf2bmp", "in.pdf", "--dpi", "72dpi", "out.bmp"] 1
      (Or.inl ⟨by decide, Or.inr ⟨"72dpi", by decide, by decide⟩⟩),
    flag_value_rejected ["pdf2bmp", "in.pdf", "--page"] 1
      (Or.inr ⟨by decide, Or.inl (by decide)⟩)⟩

/-- C6 as stated fails: a `--page` value with a sign (`+1`) or with leading
white space (` 1`), and a `--dpi` value with leading white space (` 72`), are
not numbers in their entirety, yet the parser returns `RET_OK` and stores page
index 0, respectively 72 DPI. -/
theorem signed_or_spaced_value_accepted :
    pdf2bmp_parse_cmdline ["pdf2bmp", "--page", "+1", "in.pdf", "out.bmp"]
      = (RET.RET_OK, { Globals.initial with
          g_in_file := some "in.pdf", g_out_file := some "out.bmp", g_page := 0 })
    ∧ pdf2bmp_parse_cmdline ["pdf2bmp", "--page", " 1", "in.pdf", "out.bmp"]
      = (RET.RET_OK, { Globals.initial with
          g_in_file := some "in.pdf", g_out_file := some "out.bmp", g_page := 0 })
    ∧ pdf2bmp_parse_cmdline ["pdf2bmp", "--dpi", " 72", "in.pdf", "out.bmp"]
      = (RET.RET_OK, { Globals.initial with
          g_in_file := some "in.pdf", g_out_file := some "out.bmp",
          g_dpi := Double.finite 72 }) := by
  refine ⟨?_, ?_, ?_⟩ <;> decide!

/-! ## Pixel dimensions and the sign of the DPI -/

/-- The conversion to `int` of a non-negative finite double or `+infinity`:
not negative when the double fits in `int`, and `INT_MIN` when it does not. -/
theorem static_cast_int_sign (x : Double)
    (hx : x = Double.infinity false ∨ ∃ v : ℚ, 0 ≤ v ∧ x = Double.finite v) :
    (x.fitsInt → 0 ≤ static_cast_int x) ∧ (¬ x.fitsInt → static_cast_int x = INT_MIN) := by
  rcases hx with hx | ⟨v, hv, hx⟩
  · subst hx
    exact ⟨fun h => absurd h (by simp [Double.fitsInt]), fun _ => rfl⟩
  · subst hx
    constructor
    · intro hfit
      have hlt : v < 2147483648 := hfit.2
      have hfl : ⌊v⌋ ≤ INT_MAX := by
        have : ⌊v⌋ < 2147483648 := Int.floor_lt.2 (by exact_mod_cast hlt)
        unfold INT_MAX
        omega
      rw [static_cast_int_of_nonneg v hv hfl]
      exact Int.floor_nonneg.2 hv
    · intro hnot
      have hge : (2147483648 : ℚ) ≤ v := by
        by_contra hcon
        exact hnot ⟨lt_of_lt_of_le (by norm_num) hv, not_le.1 hcon⟩
      have hfl : INT_MAX < ⌊v⌋ := by
        have : (2147483648 : Int) ≤ ⌊v⌋ := Int.le_floor.2 (by exact_mod_cast hge)
        unfold INT_MAX
        omega
      exact static_cast_int_of_large v hv hfl

/-- C8, as amended: for every page size `w, h >= 0` in points and all finite
DPI values `dx, dy >= 0`, each pixel dimension computed by
`GetPDFPageSizeInPixels` is `>= 0` when the double `points * dpi / 72.0` fits
in `int`, and is `INT_MIN` when it does not. -/
theorem GetPDFPageSizeInPixels_nonneg (query : Int → Double × Double) (page_index : Int)
    (w h dx dy : ℚ) (hq : query page_index = (Double.finite w, Double.finite h))
    (hdx : 0 ≤ dx) (hdy : 0 ≤ dy) (hw : 0 ≤ w) (hh : 0 ≤ h) :
    ((Double.finite w * Double.finite dx / Double.finite 72).fitsInt →
      0 ≤ (GetPDFPageSizeInPixels query page_index (Double.finite dx) (Double.finite dy)).1)
    ∧ (¬ (Double.finite w * Double.finite dx / Double.finite 72).fitsInt →
      (GetPDFPageSizeInPixels query page_index (Double.finite dx) (Double.finite dy)).1
        = INT_MIN)
    ∧ ((Double.finite h * Double.finite dy / Double.finite 72).fitsInt →
      0 ≤ (GetPDFPageSizeInPixels query page_index (Double.finite dx) (Double.finite dy)).2)
    ∧ (¬ (Double.finite h * Double.finite dy / Double.finite 72).fitsInt →
      (GetPDFPageSizeInPixels query page_index (Double.finite dx) (Double.finite dy)).2
        = INT_MIN) := by
  have hwidth := static_cast_int_sign _ (scaled_nonneg w dx hw hdx)
  have hheight := static_cast_int_sign _ (scaled_nonneg h dy hh hdy)
  simp only [GetPDFPageSizeInPixels, hq]
  exact ⟨hwidth.1, hwidth.2, hheight.1, hheight.2⟩

/-- C8, at a page of 72 by 72 points, 96 DPI across and `1e10` DPI down: the
width fits and is 96 pixels, the height does not fit and is `INT_MIN`. -/
theorem GetPDFPageSizeInPixels_nonneg_witness :
    (Double.finite 72 * Double.finite 96 / Double.finite 72).fitsInt
    ∧ ¬ (Double.finite 72 * Double.finite 10000000000 / Double.finite 72).fitsInt
    ∧ 0 ≤ (GetPDFPageSizeInPixels (fun _ => (Double.finite 72, Double.finite 72)) 0
        (Double.finite 96) (Double.finite 10000000000)).1
    ∧ (GetPDFPageSizeInPixels (fun _ => (Double.finite 72, Double.finite 72)) 0
        (Double.finite 96) (Double.finite 10000000000)).2 = INT_MIN :=
  have hfit : (Double.finite 72 * Double.finite 96 / Double.finite 72).fitsInt := by
    rw [show Double.finite 72 * Double.finite 96 / Double.finite 72 = Double.finite 96 by decide!]
    constructor <;> norm_num
  have hbig : ¬ (Double.finite 72 * Double.finite 10000000000 / Double.finite 72).fitsInt := by
    rw [show Double.finite 72 * Double.finite 10000000000 / Double.finite 72
      = Double.finite 10000000000 by decide!]
    intro h
    have := h.2
    norm_num at this
  ⟨hfit, hbig,
    (GetPDFPageSizeInPixels_nonneg (fun _ => (Double.finite 72, Double.finite 72)) 0 72 72
      96 10000000000 rfl (by norm_num) (by norm_num) (by norm_num) (by norm_num)).1 hfit,
    (GetPDFPageSizeInPixels_nonneg (fun _ => (Double.finite 72, Double.finite 72)) 0 72 72
      96 10000000000 rfl (by norm_num) (by norm_num) (by norm_num) (by norm_num)).2.2.2 hbig⟩

/-- C8 as stated fails: the parser accepts `--dpi -72`, and at -72 DPI a page
of 72 by 72 points gets the pixel dimensions -72 by -72; it also accepts
`--dpi 1e10`, at which the same page gets `INT_MIN` by `INT_MIN`. -/
theorem negative_dpi_gives_negative_pixels :
    pdf2bmp_parse_cmdline ["pdf2bmp", "--dpi", "-72", "in.pdf", "out.bmp"]
      = (RET.RET_OK, { Globals.initial with
          g_in_file := some "in.pdf", g_out_file := some "out.bmp",
          g_dpi := Double.finite (-72) })
    ∧ GetPDFPageSizeInPixels (fun _ => (Double.finite 72, Double.finite 72)) 0
        (Double.finite (-72)) (Double.finite (-72)) = (-72, -72)
    ∧ pdf2bmp_parse_cmdline ["pdf2bmp", "--dpi", "1e10", "in.pdf", "out.bmp"]
      = (RET.RET_OK, { Globals.initial with
          g_in_file := some "in.pdf", g_out_file := some "out.bmp",
          g_dpi := Double.finite 10000000000 })
    ∧ GetPDFPageSizeInPixels (fun _ => (Double.finite 72, Double.finite 72)) 0
        (Double.finite 10000000000) (Double.finite 10000000000) = (INT_MIN, INT_MIN) := by
  refine ⟨?_, ?_, ?_, ?_⟩ <;> decide!

/-! ## A document that cannot be loaded -/

/-- C9: for every accepted argument list, if `FPDF_LoadDocument` fails on the
input path then `pdf2bmp_main` returns 1 and `SaveBitmapToFile` is never
called. -/
theorem load_failure_no_save (env : Env) (argv : List String) (hacc : accepted argv)
    (hload : ∀ in_file, (pdf2bmp_parse_cmdline argv).2.g_in_file = some in_file →
      env.FPDF_LoadDocument in_file = false) :
    ∃ tr, pdf2bmp_main env argv = (1, tr) ∧ ∀ e ∈ tr, e.isSave = false := by
  obtain ⟨hlen, hok, hu, hv, hin, hout, hpage⟩ := hacc
  unfold pdf2bmp_main
  rw [if_neg (by omega), if_neg (fun hne => hne hok), if_neg (by simp [hu]),
    if_neg (by simp [hv])]
  cases hin2 : (pdf2bmp_parse_cmdline argv).2.g_in_file with
  | none => exact absurd hin2 hin
  | some in_file =>
    cases hout2 : (pdf2bmp_parse_cmdline argv).2.g_out_file with
    | none => exact absurd hout2 hout
    | some out_file =>
      dsimp only
      rw [if_neg (by omega)]
      by_cases hinit : env.FPDF_GetLastError ≠ 0
      · rw [if_pos hinit]
        refine ⟨_, rfl, ?_⟩
        intro e he
        simp only [List.cons_append, List.nil_append, List.mem_cons, List.mem_singleton,
          List.not_mem_nil, or_false] at he
        rcases he with he | he | he <;> rw [he] <;> rfl
      · rw [if_neg hinit, if_pos (hload in_file hin2)]
        refine ⟨_, rfl, ?_⟩
        intro e he
        simp only [List.cons_append, List.nil_append, List.mem_cons, List.mem_singleton,
          List.not_mem_nil, or_false] at he
        rcases he with he | he | he | he | he <;> rw [he] <;> rfl

/-- C9, at `pdf2bmp in.pdf out.bmp` with a document that cannot be loaded. -/
theorem load_failure_no_save_witness :
    accepted ["pdf2bmp", "in.pdf", "out.bmp"]
    ∧ ∃ tr, pdf2bmp_main Env.noDocument ["pdf2bmp", "in.pdf", "out.bmp"] = (1, tr)
        ∧ ∀ e ∈ tr, e.isSave = false :=
  ⟨by unfold accepted; decide,
    load_failure_no_save Env.noDocument ["pdf2bmp", "in.pdf", "out.bmp"]
      (by unfold accepted; decide) (fun _ _ => rfl)⟩

/-! ## The page used for the canvas size -/

/-- C2 fails on the code: on `pdf2bmp --page 2 in.pdf out.bmp`, with a document
whose first page is 72 by 72 points and whose second page is 144 by 144 points,
the size query is made for page index 0 while page index 1 is loaded, and the
canvas and the render rectangle are 72 by 72 pixels, although the selected page
measures 144 by 144 pixels at 72 DPI. -/
theorem canvas_size_from_first_page :
    pdf2bmp_main Env.twoPages ["pdf2bmp", "--page", "2", "in.pdf", "out.bmp"]
      = (0, [Event.FPDF_InitLibraryWithConfig, Event.FPDF_GetLastError,
          Event.FPDF_LoadDocument "in.pdf", Event.FPDF_GetPageSizeByIndex 0,
          Event.FPDF_LoadPage 1, Event.CreateCompatibleDC, Event.CreateDIBSection 72 (-72) 24,
          Event.SelectObject, Event.FillRect 72 72, Event.FPDF_RenderPage 72 72,
          Event.SelectObject, Event.DeleteDC true, Event.SaveBitmapToFile "out.bmp" true,
          Event.DeleteObject true, Event.FPDF_ClosePage, Event.FPDF_CloseDocument,
          Event.FPDF_DestroyLibrary])
    ∧ GetPDFPageSizeInPixels Env.twoPages.FPDF_GetPageSizeByIndex 1
        (Double.finite 72) (Double.finite 72) = (144, 144) := by
  constructor <;> decide!

/-! ## Acquisition and release of resources -/

theorem steps_console (env : Env) (tr : List Event) (h : consoleOnly tr) :
    steps env tr = [] := by
  induction tr with
  | nil => rfl
  | cons e tr ih =>
    have he : e.isConsole = true := h e (by simp)
    have ht : consoleOnly tr := fun x hx => h x (by simp [hx])
    cases e <;> simp [Event.isConsole] at he <;> simp [steps, ih ht]

theorem steps_append (env : Env) (tr1 tr2 : List Event) :
    steps env (tr1 ++ tr2) = steps env tr1 ++ steps env tr2 := by
  induction tr1 with
  | nil => rfl
  | cons e tr ih =>
    cases e <;> simp [steps, ih]

/-- C10, as amended: on every exit path of `pdf2bmp_main`, for every outcome
of the collaborators, the acquisitions, releases, rendering and save occur in
one of four orders: none at all (the arguments are rejected or the library
initialisation fails); library acquired and released; library and document
acquired, then released in reverse order; or the full run, in which library,
document, page, device context and bitmap are acquired in this order (the last
two when obtained), the page is rendered, the device context is released, the
bitmap is saved and then released, and page, document and library are released
in this order. In each, every resource acquired is released exactly once, after
its acquisition, and nothing else is released. -/
theorem release_discipline (env : Env) (argv : List String) :
    (steps env (pdf2bmp_main env argv).2 = []
      ∨ steps env (pdf2bmp_main env argv).2
        = [Step.acquire Resource.library, Step.release Resource.library]
      ∨ steps env (pdf2bmp_main env argv).2
        = [Step.acquire Resource.library, Step.acquire Resource.document,
            Step.release Resource.document, Step.release Resource.library]
      ∨ ∃ dc bmp : Bool, steps env (pdf2bmp_main env argv).2 = fullRun dc bmp)
    ∧ balanced (steps env (pdf2bmp_main env argv).2) [] = true := by
  have hbal : ∀ l : List Step,
      (l = [] ∨ l = [Step.acquire Resource.library, Step.release Resource.library]
        ∨ l = [Step.acquire Resource.library, Step.acquire Resource.document,
            Step.release Resource.document, Step.release Resource.library]
        ∨ ∃ dc bmp : Bool, l = fullRun dc bmp) → balanced l [] = true := by
    intro l hl
    rcases hl with h | h | h | ⟨dc, bmp, h⟩
    · subst h
      rfl
    · subst h
      decide
    · subst h
      decide
    · subst h
      cases dc <;> cases bmp <;> decide
  refine ⟨?_, hbal _ ?_⟩ <;>
  · unfold pdf2bmp_main
    by_cases hlen : argv.length ≤ 1
    · rw [if_pos hlen]
      left
      rfl
    rw [if_neg hlen]
    by_cases hok : (pdf2bmp_parse_cmdline argv).1 ≠ RET.RET_OK
    · rw [if_pos hok]
      left
      rfl
    rw [if_neg hok]
    by_cases hu : (pdf2bmp_parse_cmdline argv).2.g_usage = true
    · rw [if_pos hu]
      left
      rfl
    rw [if_neg hu]
    by_cases hv : (pdf2bmp_parse_cmdline argv).2.g_version = true
    · rw [if_pos hv]
      left
      rfl
    rw [if_neg hv]
    cases hin : (pdf2bmp_parse_cmdline argv).2.g_in_file with
    | none =>
      left
      rfl
    | some in_file =>
      cases hout : (pdf2bmp_parse_cmdline argv).2.g_out_file with
      | none =>
        left
        rfl
      | some out_file =>
        dsimp only
        by_cases hpage : (pdf2bmp_parse_cmdline argv).2.g_page < 0
        · rw [if_pos hpage]
          left
          rfl
        rw [if_neg hpage]
        by_cases hinit : env.FPDF_GetLastError ≠ 0
        · rw [if_pos hinit]
          left
          simp [steps, hinit]
        rw [if_neg hinit]
        have hinit2 : env.FPDF_GetLastError = 0 := not_not.1 hinit
        by_cases hdoc : env.FPDF_LoadDocument in_file = false
        · rw [if_pos hdoc]
          right
          left
          simp [steps, hinit2, hdoc]
        rw [if_neg hdoc]
        have hdoc2 : env.FPDF_LoadDocument in_file = true := by simpa using hdoc
        by_cases hpg : env.FPDF_LoadPage (pdf2bmp_parse_cmdline argv).2.g_page = false
        · rw [if_pos hpg]
          right
          right
          left
          simp [steps, hinit2, hdoc2, hpg]
        rw [if_neg hpg]
        have hpg2 : env.FPDF_LoadPage (pdf2bmp_parse_cmdline argv).2.g_page = true := by
          simpa using hpg
        right
        right
        right
        refine ⟨env.CreateCompatibleDC,
          env.CreateDIBSection
            (GetPDFPageSizeInPixels env.FPDF_GetPageSizeByIndex 0
              (pdf2bmp_parse_cmdline argv).2.g_dpi (pdf2bmp_parse_cmdline argv).2.g_dpi).1
            (int_neg (GetPDFPageSizeInPixels env.FPDF_GetPageSizeByIndex 0
              (pdf2bmp_parse_cmdline argv).2.g_dpi (pdf2bmp_parse_cmdline argv).2.g_dpi).2), ?_⟩
        by_cases hsave : env.SaveBitmapToFile out_file = false
        · rw [if_pos hsave]
          simp [steps, steps_append, Create24BppBitmap, fullRun, hinit2, hdoc2, hpg2]
        · rw [if_neg hsave]
          simp [steps, steps_append, Create24BppBitmap, fullRun, hinit2, hdoc2, hpg2]

/-- C10 as stated fails: on `pdf2bmp in.pdf out.bmp` with every collaborator
succeeding, the resources are acquired in the order library, document, page,
device context, bitmap and released in the order device context, bitmap, page,
document, library, which is not the reverse order of acquisition. -/
theorem release_order_not_reverse :
    pdf2bmp_main Env.twoPages ["pdf2bmp", "in.pdf", "out.bmp"] = (0, successTrace)
    ∧ acquired Env.twoPages successTrace = [Resource.library, Resource.document, Resource.page,
        Resource.deviceContext, Resource.bitmap]
    ∧ released successTrace = [Resource.deviceContext, Resource.bitmap, Resource.page,
        Resource.document, Resource.library]
    ∧ released successTrace ≠ (acquired Env.twoPages successTrace).reverse :=
  ⟨by decide!, by decide!, by decide!, by decide!⟩

end Pdf2bmp
